import Mathlib

/-!
# Verification of the `lnurl` repository

Shallow embedding of `src/lnurl/tools.py` (bech32 codec, relying on the
standard BIP-173 reference bech32 module the source imports) and of
`src/lnurl/models.py` (pydantic response models and the
`LnurlResponse.from_dict` classifier), together with proofs of the spec
claims.

Python strings are modelled as `List Char` in the codec and as `String`
in the response layer; JSON-decoded values as the inductive `JVal`;
Python dicts as ordered association lists `PyDict`.
-/

namespace Lnurl

/-! ## Python string primitives (ASCII fragment used by the source) -/

/-- ASCII uppercase of a character, as Python `str.upper` acts on ASCII. -/
def asciiUpperChar (c : Char) : Char :=
  if 'a' ≤ c ∧ c ≤ 'z' then Char.ofNat (c.toNat - 32) else c

/-- ASCII lowercase of a character, as Python `str.lower` acts on ASCII. -/
def asciiLowerChar (c : Char) : Char :=
  if 'A' ≤ c ∧ c ≤ 'Z' then Char.ofNat (c.toNat + 32) else c

/-- Python `s.upper()` on an ASCII string. -/
def pyUpper (s : String) : String := String.mk (s.data.map asciiUpperChar)

/-- Python `s.upper()` on a character list. -/
def pyUpperL (s : List Char) : List Char := s.map asciiUpperChar

/-- Python `s.lower()` on a character list. -/
def pyLowerL (s : List Char) : List Char := s.map asciiLowerChar

/-! ## JSON values and Python dicts -/

/-- A JSON-decoded Python value, the input shape of `LnurlResponse.from_dict`. -/
inductive JVal where
  | str (s : String)
  | num (n : ℤ)
  | bool (b : Bool)
  | null
  | arr (elems : List JVal)
  | obj (fields : List (String × JVal))

/-- A Python dict with string keys, in insertion order. -/
abbrev PyDict := List (String × JVal)

/-- Python `d[k]`-style lookup (first binding wins; Python dicts have unique keys). -/
def dictLookup (d : PyDict) (k : String) : Option JVal :=
  match d with
  | [] => none
  | (k', v) :: rest => if k' = k then some v else dictLookup rest k

/-- Python `d[k] = v`: replaces the first binding of `k` in place
(appends for a fresh key, as Python insertion order would). -/
def dictUpdate (d : PyDict) (k : String) (v : JVal) : PyDict :=
  match d with
  | [] => [(k, v)]
  | (k', v') :: rest =>
      if k' = k then (k, v) :: rest else (k', v') :: dictUpdate rest k v

/-- Python `d.pop(k, None)`: removes the first binding of `k`, if any. -/
def dictPop (d : PyDict) (k : String) : PyDict :=
  match d with
  | [] => []
  | (k', v') :: rest => if k' = k then rest else (k', v') :: dictPop rest k

/-! ## Scalar value types (from the missing `lnurl/types.py` module) -/

/-- Modelled from the spec: `HttpsUrl` is "a URL string that must use the
`https` scheme (with a documented exception for `.onion` hosts, which may use
plain `http`)"; the host is the part between the scheme separator and the
first `/` or `:`. The validation predicate lives in the repository's
`lnurl/types.py`, which is not under `src/`. -/
def httpsUrlValid (s : String) : Bool :=
  let host (rest : List Char) : List Char := rest.takeWhile (fun c => c ≠ '/' ∧ c ≠ ':')
  if "https://".toList.isPrefixOf s.toList then true
  else if "http://".toList.isPrefixOf s.toList then
    ".onion".toList.isSuffixOf (host (s.toList.drop 7))
  else false

/-- Modelled from the spec: `MilliSatoshi` is "a non-negative integer amount
denominated in thousandths of a satoshi" (`lnurl/types.py` is not under
`src/`). -/
def parseMilliSatoshi : JVal → Option ℕ
  | JVal.num n => if 0 ≤ n then some n.toNat else none
  | _ => none

/-- Modelled from the spec: `LightningInvoice` is "a string conforming to the
BOLT-11 invoice encoding (structural check only)"; modelled as a structural
prefix check, `lnurl/types.py` being absent from `src/`. -/
def lightningInvoiceValid (s : String) : Bool :=
  "ln".toList.isPrefixOf (s.data.map asciiLowerChar)

/-- Modelled from the spec: `LightningNodeUri` is "a string of the form
`<33-byte-hex-pubkey>@<host>:<port>`" (`lnurl/types.py` is not under
`src/`). -/
def lightningNodeUriValid (s : String) : Bool :=
  match s.toList.splitOn '@' with
  | [pk, hostport] =>
      pk.length == 66 && pk.all (fun c => c.isDigit || ('a' ≤ c && c ≤ 'f')) &&
      match hostport.splitOn ':' with
      | [h, p] => !h.isEmpty && !p.isEmpty && p.all Char.isDigit
      | _ => false
  | _ => false

/-- Substring test used to model the metadata check. -/
def containsSub (hay needle : List Char) : Bool :=
  hay.tails.any (fun t => needle.isPrefixOf t)

/-- Modelled from the spec: `LnurlPayMetadata` is "a string holding a
JSON-encoded array of `[type, content]` pairs, required to contain at least
one `text/plain` entry"; modelled as requiring a `text/plain` occurrence
(`lnurl/types.py` is not under `src/`). -/
def lnurlPayMetadataValid (s : String) : Bool :=
  containsSub s.toList "text/plain".toList

/-! ## Pydantic construction -/

/-- A pydantic `ValidationError`, reduced to what the claims inspect:
which field failed, or the message of a `ValueError` raised by a validator. -/
inductive PErr where
  | missing (field : String)
  | invalid (field : String)
  | valueError (msg : String)
deriving DecidableEq

/-- Field lookup for `Model(**d)`: the alias is tried first, then (because
`Config.allow_population_by_field_name = True`) the field name. -/
def getField (d : PyDict) (al fname : String) : Option JVal :=
  match dictLookup d al with
  | some v => some v
  | none => dictLookup d fname

/-- A required `str` field (identical alias and name). -/
def vStr (d : PyDict) (name : String) : Except PErr String :=
  match getField d name name with
  | none => Except.error (PErr.missing name)
  | some (JVal.str s) => Except.ok s
  | some _ => Except.error (PErr.invalid name)

/-- A `str` field with a default, under alias `al`. -/
def vStrDefault (d : PyDict) (al fname dflt : String) : Except PErr String :=
  match getField d al fname with
  | none => Except.ok dflt
  | some (JVal.str s) => Except.ok s
  | some _ => Except.error (PErr.invalid fname)

/-- A `Literal[lit]` field with default `lit`. -/
def vLiteral (d : PyDict) (name lit : String) : Except PErr String :=
  match getField d name name with
  | none => Except.ok lit
  | some (JVal.str s) => if s = lit then Except.ok s else Except.error (PErr.invalid name)
  | some _ => Except.error (PErr.invalid name)

/-- A required `HttpsUrl` field. -/
def vHttpsUrl (d : PyDict) (name : String) : Except PErr String :=
  match getField d name name with
  | none => Except.error (PErr.missing name)
  | some (JVal.str s) =>
      if httpsUrlValid s then Except.ok s else Except.error (PErr.invalid name)
  | some _ => Except.error (PErr.invalid name)

/-- A required `MilliSatoshi` field under alias `al`. -/
def vMsat (d : PyDict) (al fname : String) : Except PErr ℕ :=
  match getField d al fname with
  | none => Except.error (PErr.missing fname)
  | some v =>
      match parseMilliSatoshi v with
      | some n => Except.ok n
      | none => Except.error (PErr.invalid fname)

/-- A required `LightningNodeUri` field. -/
def vNodeUri (d : PyDict) (name : String) : Except PErr String :=
  match getField d name name with
  | none => Except.error (PErr.missing name)
  | some (JVal.str s) =>
      if lightningNodeUriValid s then Except.ok s else Except.error (PErr.invalid name)
  | some _ => Except.error (PErr.invalid name)

/-! ## Response models (`src/lnurl/models.py`) -/

structure LnurlErrorResponse where
  status : String
  reason : String
deriving DecidableEq

structure LnurlSuccessResponse where
  status : String
deriving DecidableEq

structure LnurlAuthResponse where
  tag : String
  callback : String
  k1 : String
deriving DecidableEq

structure LnurlChannelResponse where
  tag : String
  uri : String
  callback : String
  k1 : String
deriving DecidableEq

structure LnurlHostedChannelResponse where
  tag : String
  uri : String
  k1 : String
  alias_ : Option String
deriving DecidableEq

structure LnurlPayResponse where
  tag : String
  callback : String
  min_sendable : ℕ
  max_sendable : ℕ
  metadata : String
deriving DecidableEq

/-- Models `LnurlPaySuccessAction` and `LnurlPayRoute` are field-less:
any JSON object validates into them, so they carry no data here. -/
structure LnurlPayActionResponse where
  pr : String
  success_action : Option Unit
  routes : List Unit
deriving DecidableEq

structure LnurlWithdrawResponse where
  tag : String
  callback : String
  k1 : String
  min_withdrawable : ℕ
  max_withdrawable : ℕ
  default_description : String
deriving DecidableEq

/-- The message of the `ValueError` raised by `LnurlPayResponse.max_less_than_min`. -/
def payRangeMsg : String := "`max_sendable` cannot be less than `min_sendable`."

/-- The message of the `ValueError` raised by `LnurlWithdrawResponse.max_less_than_min`. -/
def withdrawRangeMsg : String := "`max_withdrawable` cannot be less than `min_withdrawable`."

/-- Sequencing of pydantic field validations: stop at the first failure.
(Real pydantic collects all field errors; only whether construction fails,
and the failure of a lone failing field, are observed by the claims.) -/
def exBind {α β : Type} (e : Except PErr α) (f : α → Except PErr β) : Except PErr β :=
  match e with
  | Except.error err => Except.error err
  | Except.ok a => f a

theorem exBind_ok {α β : Type} (a : α) (f : α → Except PErr β) :
    exBind (Except.ok a) f = f a := rfl

theorem exBind_error {α β : Type} (e : PErr) (f : α → Except PErr β) :
    exBind (Except.error e) f = Except.error e := rfl

/-- An `Optional[str]` field (implicit default `None`). -/
def vOptStr (d : PyDict) (name : String) : Except PErr (Option String) :=
  match getField d name name with
  | none => Except.ok none
  | some JVal.null => Except.ok none
  | some (JVal.str s) => Except.ok (some s)
  | some _ => Except.error (PErr.invalid name)

/-- A required `LightningInvoice` field. -/
def vInvoice (d : PyDict) (name : String) : Except PErr String :=
  match getField d name name with
  | none => Except.error (PErr.missing name)
  | some (JVal.str s) =>
      if lightningInvoiceValid s then Except.ok s else Except.error (PErr.invalid name)
  | some _ => Except.error (PErr.invalid name)

/-- A required `LnurlPayMetadata` field. -/
def vMetadata (d : PyDict) (name : String) : Except PErr String :=
  match getField d name name with
  | none => Except.error (PErr.missing name)
  | some (JVal.str s) =>
      if lnurlPayMetadataValid s then Except.ok s else Except.error (PErr.invalid name)
  | some _ => Except.error (PErr.invalid name)

/-- The `success_action: Optional[LnurlPaySuccessAction]` field (alias
`successAction`, default `None`): a JSON object coerces into the field-less
`LnurlPaySuccessAction` model. -/
def vSuccessAction (d : PyDict) : Except PErr (Option Unit) :=
  match getField d "successAction" "success_action" with
  | none => Except.ok none
  | some JVal.null => Except.ok none
  | some (JVal.obj _) => Except.ok (some ())
  | some _ => Except.error (PErr.invalid "success_action")

/-- The `routes: List[LnurlPayRoute] = []` field: a JSON array of objects,
each coercing into the field-less `LnurlPayRoute` model. -/
def vRoutes (d : PyDict) : Except PErr (List Unit) :=
  match getField d "routes" "routes" with
  | none => Except.ok []
  | some (JVal.arr xs) =>
      if xs.all (fun x => match x with | JVal.obj _ => true | _ => false)
      then Except.ok (xs.map fun _ => ())
      else Except.error (PErr.invalid "routes")
  | some _ => Except.error (PErr.invalid "routes")

/-- Construction `LnurlErrorResponse(**d)`: `status: Literal['ERROR'] = 'ERROR'`, `reason: str`;
extra keys are ignored (pydantic default `Extra.ignore`). -/
def LnurlErrorResponse.construct (d : PyDict) : Except PErr LnurlErrorResponse :=
  exBind (vLiteral d "status" "ERROR") fun status =>
  exBind (vStr d "reason") fun reason =>
  Except.ok ⟨status, reason⟩

/-- Construction `LnurlSuccessResponse(**d)`: `status: Literal['OK'] = 'OK'`. -/
def LnurlSuccessResponse.construct (d : PyDict) : Except PErr LnurlSuccessResponse :=
  exBind (vLiteral d "status" "OK") fun status =>
  Except.ok ⟨status⟩

/-- Construction `LnurlAuthResponse(**d)` (present in the source, but absent
from the dispatch table of `from_dict`). -/
def LnurlAuthResponse.construct (d : PyDict) : Except PErr LnurlAuthResponse :=
  exBind (vLiteral d "tag" "login") fun tag =>
  exBind (vHttpsUrl d "callback") fun callback =>
  exBind (vStr d "k1") fun k1 =>
  Except.ok ⟨tag, callback, k1⟩

/-- Construction `LnurlChannelResponse(**d)`. -/
def LnurlChannelResponse.construct (d : PyDict) : Except PErr LnurlChannelResponse :=
  exBind (vLiteral d "tag" "channelRequest") fun tag =>
  exBind (vNodeUri d "uri") fun uri =>
  exBind (vHttpsUrl d "callback") fun callback =>
  exBind (vStr d "k1") fun k1 =>
  Except.ok ⟨tag, uri, callback, k1⟩

/-- Construction `LnurlHostedChannelResponse(**d)`. -/
def LnurlHostedChannelResponse.construct (d : PyDict) :
    Except PErr LnurlHostedChannelResponse :=
  exBind (vLiteral d "tag" "hostedChannelRequest") fun tag =>
  exBind (vNodeUri d "uri") fun uri =>
  exBind (vStr d "k1") fun k1 =>
  exBind (vOptStr d "alias") fun al =>
  Except.ok ⟨tag, uri, k1, al⟩

/-- Construction `LnurlPayResponse(**d)`: fields in declaration order; the
`max_less_than_min` validator runs while validating `max_sendable`, with the
already-validated `min_sendable` in `values`. -/
def LnurlPayResponse.construct (d : PyDict) : Except PErr LnurlPayResponse :=
  exBind (vLiteral d "tag" "payRequest") fun tag =>
  exBind (vHttpsUrl d "callback") fun callback =>
  exBind (vMsat d "minSendable" "min_sendable") fun minS =>
  exBind (vMsat d "maxSendable" "max_sendable") fun maxS =>
  if maxS < minS then Except.error (PErr.valueError payRangeMsg)
  else
    exBind (vMetadata d "metadata") fun md =>
    Except.ok ⟨tag, callback, minS, maxS, md⟩

/-- Construction `LnurlPayActionResponse(**d)`: `pr: LightningInvoice`,
`success_action: Optional[LnurlPaySuccessAction]` (alias `successAction`,
default `None`), `routes: List[LnurlPayRoute] = []`. -/
def LnurlPayActionResponse.construct (d : PyDict) :
    Except PErr LnurlPayActionResponse :=
  exBind (vInvoice d "pr") fun pr =>
  exBind (vSuccessAction d) fun sa =>
  exBind (vRoutes d) fun routes =>
  Except.ok ⟨pr, sa, routes⟩

/-- Construction `LnurlWithdrawResponse(**d)`, with its `max_less_than_min` validator. -/
def LnurlWithdrawResponse.construct (d : PyDict) :
    Except PErr LnurlWithdrawResponse :=
  exBind (vLiteral d "tag" "withdrawRequest") fun tag =>
  exBind (vHttpsUrl d "callback") fun callback =>
  exBind (vStr d "k1") fun k1 =>
  exBind (vMsat d "minWithdrawable" "min_withdrawable") fun minW =>
  exBind (vMsat d "maxWithdrawable" "max_withdrawable") fun maxW =>
  if maxW < minW then Except.error (PErr.valueError withdrawRangeMsg)
  else
    exBind (vStrDefault d "defaultDescription" "default_description" "") fun dd =>
    Except.ok ⟨tag, callback, k1, minW, maxW, dd⟩

/-! ## `LnurlResponse.from_dict` -/

/-- The closed set of response variants `from_dict` can return. -/
inductive Resp where
  | error (r : LnurlErrorResponse)
  | success (r : LnurlSuccessResponse)
  | channel (r : LnurlChannelResponse)
  | hostedChannel (r : LnurlHostedChannelResponse)
  | pay (r : LnurlPayResponse)
  | payAction (r : LnurlPayActionResponse)
  | withdraw (r : LnurlWithdrawResponse)
deriving DecidableEq

/-- The `except Exception: raise LnurlResponseException` boundary: every
construction failure is collapsed to one opaque error. -/
def collapse {α : Type} (e : Except PErr α) (f : α → Resp) : Except Unit Resp :=
  match e with
  | Except.ok a => Except.ok (f a)
  | Except.error _ => Except.error ()

/-- The `elif 'tag' in d` branch of `from_dict`: `d.pop('status', None)` has
already happened, then the tag is looked up in the fixed table (a missing
entry raises a `KeyError`, collapsed to the opaque error). -/
def tagDispatch (d1 : PyDict) (tagv : JVal) : Except Unit Resp :=
  match tagv with
  | JVal.str s =>
      if s = "channelRequest" then collapse (LnurlChannelResponse.construct d1) Resp.channel
      else if s = "hostedChannelRequest" then
        collapse (LnurlHostedChannelResponse.construct d1) Resp.hostedChannel
      else if s = "payRequest" then collapse (LnurlPayResponse.construct d1) Resp.pay
      else if s = "withdrawRequest" then
        collapse (LnurlWithdrawResponse.construct d1) Resp.withdraw
      else Except.error ()
  | _ => Except.error ()

/-- The part of `from_dict` after the `status == 'ERROR'` test has failed. -/
def fromDictRest (d : PyDict) : Except Unit Resp × PyDict :=
  match dictLookup d "tag" with
  | some tagv =>
      let d1 := dictPop d "status"
      (tagDispatch d1 tagv, d1)
  | none =>
      match dictLookup d "success_action" with
      | some _ => (collapse (LnurlPayActionResponse.construct d) Resp.payAction, d)
      | none => (collapse (LnurlSuccessResponse.construct d) Resp.success, d)

/-- Classification `LnurlResponse.from_dict(d)`.  The result records both the returned value
(or the opaque `LnurlResponseException`) and the final state of the mapping
`d`, which the Python code mutates in place (`d['status'] = ...` in the error
branch, `d.pop('status', None)` in the tag branch).  A non-string `status`
makes `d['status'].upper()` raise an `AttributeError`, collapsed to the
opaque error before any mutation. -/
def fromDict (d : PyDict) : Except Unit Resp × PyDict :=
  match dictLookup d "status" with
  | some (JVal.str s) =>
      if pyUpper s = "ERROR" then
        let d1 := dictUpdate d "status" (JVal.str (pyUpper s))
        (collapse (LnurlErrorResponse.construct d1) Resp.error, d1)
      else fromDictRest d
  | some _ => (Except.error (), d)
  | none => fromDictRest d


/-! ## Concrete payloads and the pydantic mutability model -/

/-- A payRequest payload with the given field values (`tag` left to its
default). -/
def payDict (cb md : String) (minv maxv : ℕ) : PyDict :=
  [("callback", JVal.str cb), ("minSendable", JVal.num minv),
   ("maxSendable", JVal.num maxv), ("metadata", JVal.str md)]

/-- A withdrawRequest payload with the given field values. -/
def withdrawDict (cb k1 : String) (minv maxv : ℕ) : PyDict :=
  [("callback", JVal.str cb), ("k1", JVal.str k1),
   ("minWithdrawable", JVal.num minv), ("maxWithdrawable", JVal.num maxv)]

/-- The pydantic v1 `Config` options that govern population and mutation. -/
structure PydanticConfig where
  allow_population_by_field_name : Bool
  allow_mutation : Bool
  validate_assignment : Bool

/-- The `Config` of `LnurlResponseModel` in the source: it sets only
`allow_population_by_field_name = True`; `allow_mutation = True` and
`validate_assignment = False` are the pydantic v1 defaults, left untouched. -/
def lnurlResponseModelConfig : PydanticConfig :=
  { allow_population_by_field_name := true
    allow_mutation := true
    validate_assignment := false }

/-- Pydantic v1 `BaseModel.__setattr__` applied to the `max_sendable` field
of a `LnurlPayResponse`: it refuses iff `Config.allow_mutation` is false,
re-runs the `max_less_than_min` validator iff `Config.validate_assignment`
is true, and otherwise assigns the new value with no validation at all. -/
def LnurlPayResponse.setMaxSendable (cfg : PydanticConfig) (r : LnurlPayResponse)
    (v : ℕ) : Except PErr LnurlPayResponse :=
  if cfg.allow_mutation = false then
    Except.error (PErr.valueError "\"LnurlPayResponse\" is immutable and does not support item assignment")
  else if cfg.validate_assignment = true ∧ v < r.min_sendable then
    Except.error (PErr.valueError payRangeMsg)
  else Except.ok { r with max_sendable := v }

/-- The concrete mapping used to exhibit the in-place mutation of
`from_dict` (claim C6). -/
def c6Dict : PyDict := [("status", JVal.str "error"), ("reason", JVal.str "oops")]

/-- The concrete payRequest payload used for claim C8. -/
def c8Dict : PyDict := payDict "https://a.co/q" "[[\"text/plain\",\"x\"]]" 1000 1000

/-! ## Python float division (`min_sats` / `max_sats` properties) -/

/-- Fuel-based binary logarithm: `log2fuel f n` is the floor of the base-2
logarithm of `n` whenever `1 <= n <= f` (structural recursion so that the
kernel can evaluate it on concrete inputs). -/
def log2fuel : ℕ → ℕ → ℕ
  | 0, _ => 0
  | f + 1, n => if n < 2 then 0 else log2fuel f (n / 2) + 1

/-- Floor of the base-2 logarithm of `n / 1000`, for `n >= 1`. -/
def flog2div1000 (n : ℕ) : ℤ :=
  (log2fuel (1024 * n / 1000) (1024 * n / 1000) : ℤ) - 10

/-- Round half to even: the integer nearest to a nonnegative rational, ties
going to the even integer — the IEEE-754 default rounding used by CPython's
int-by-int true division. -/
def rhe (x : ℚ) : ℤ :=
  if x - ⌊x⌋ < 1 / 2 then ⌊x⌋
  else if 1 / 2 < x - ⌊x⌋ then ⌊x⌋ + 1
  else if ⌊x⌋ % 2 = 0 then ⌊x⌋ else ⌊x⌋ + 1

/-- The IEEE-754 binary64 value produced by Python's true division
`n / 1000` of a non-negative int (CPython rounds the exact quotient to the
nearest double, ties to even), represented as an exact rational: the
quotient is scaled into the 53-bit mantissa window `[2^52, 2^53)`, rounded
half to even, and scaled back.  Exponent overflow (`n` around `2^1034`) and
subnormals are out of the ranges exercised here. -/
def pyFloatDiv1000 (n : ℕ) : ℚ :=
  if n = 0 then 0
  else
    (rhe ((n : ℚ) / 1000 / 2 ^ (flog2div1000 n - 52)) : ℚ) * 2 ^ (flog2div1000 n - 52)

/-- Python `int(math.ceil(n / 1000))` for a non-negative int `n`. -/
def pyCeilSats (n : ℕ) : ℤ := ⌈pyFloatDiv1000 n⌉

/-- Python `int(math.floor(n / 1000))` for a non-negative int `n`. -/
def pyFloorSats (n : ℕ) : ℤ := ⌊pyFloatDiv1000 n⌋

/-- Property `LnurlPayResponse.min_sats`: `int(math.ceil(self.min_sendable / 1000))`. -/
def LnurlPayResponse.min_sats (r : LnurlPayResponse) : ℤ := pyCeilSats r.min_sendable

/-- Property `LnurlPayResponse.max_sats`: `int(math.floor(self.max_sendable / 1000))`. -/
def LnurlPayResponse.max_sats (r : LnurlPayResponse) : ℤ := pyFloorSats r.max_sendable

/-- Property `LnurlWithdrawResponse.min_sats`. -/
def LnurlWithdrawResponse.min_sats (r : LnurlWithdrawResponse) : ℤ :=
  pyCeilSats r.min_withdrawable

/-- Property `LnurlWithdrawResponse.max_sats`. -/
def LnurlWithdrawResponse.max_sats (r : LnurlWithdrawResponse) : ℤ :=
  pyFloorSats r.max_withdrawable

/-- The concrete payRequest payload with `minSendable = 10^17 + 1` used for
claim C5. -/
def c5Dict : PyDict :=
  payDict "https://a.co/q" "[[\"text/plain\",\"x\"]]" 100000000000000001 100000000000000001

/-- The response `from_dict` builds out of `c5Dict`. -/
def c5Pay : LnurlPayResponse :=
  ⟨"payRequest", "https://a.co/q", 100000000000000001, 100000000000000001,
   "[[\"text/plain\",\"x\"]]"⟩

/-- The pay response realizing the spec's satoshi-conversion examples
(`minSendable = 1500`, `maxSendable = 2999`). -/
def c5SpecPay : LnurlPayResponse :=
  ⟨"payRequest", "https://x.com/cb", 1500, 2999, "[[\"text/plain\",\"hi\"]]"⟩

/-! ## Bech32 (the BIP-173 reference implementation, i.e. the `bech32`
module that `src/lnurl/tools.py` imports) -/

/-- The bech32 data charset. -/
def CHARSET : List Char := "qpzry9x8gf2tvdw0s3jn54khce6mua7l".toList

/-- One iteration of the `bech32_polymod` loop: shift the checksum register,
mix in the next 5-bit value, and conditionally XOR each generator constant
according to the five bits shifted out of the top. -/
def polymodStep (chk value : ℕ) : ℕ :=
  let top := chk >>> 25
  let b0 := ((chk &&& 0x1ffffff) <<< 5) ^^^ value
  let b1 := if (top >>> 0) &&& 1 = 1 then b0 ^^^ 0x3b6a57b2 else b0
  let b2 := if (top >>> 1) &&& 1 = 1 then b1 ^^^ 0x26508e6d else b1
  let b3 := if (top >>> 2) &&& 1 = 1 then b2 ^^^ 0x1ea119fa else b2
  let b4 := if (top >>> 3) &&& 1 = 1 then b3 ^^^ 0x3d4233dd else b3
  if (top >>> 4) &&& 1 = 1 then b4 ^^^ 0x2a1462b3 else b4

/-- Function `bech32_polymod`. -/
def bech32_polymod (values : List ℕ) : ℕ := values.foldl polymodStep 1

/-- Function `bech32_hrp_expand`. -/
def bech32_hrp_expand (hrp : List Char) : List ℕ :=
  hrp.map (fun c => c.toNat >>> 5) ++ [0] ++ hrp.map (fun c => c.toNat &&& 31)

/-- Function `bech32_verify_checksum`. -/
def bech32_verify_checksum (hrp : List Char) (data : List ℕ) : Bool :=
  bech32_polymod (bech32_hrp_expand hrp ++ data) == 1

/-- Function `bech32_create_checksum`. -/
def bech32_create_checksum (hrp : List Char) (data : List ℕ) : List ℕ :=
  let values := bech32_hrp_expand hrp ++ data
  let polymod := bech32_polymod (values ++ [0, 0, 0, 0, 0, 0]) ^^^ 1
  (List.range 6).map (fun i => (polymod >>> (5 * (5 - i))) &&& 31)

/-- Function `bech32_encode` (its `data` values are < 32 on every call the
codec makes, so the out-of-range `IndexError` branch of `CHARSET[d]` is
modelled by a default character). -/
def bech32_encode (hrp : List Char) (data : List ℕ) : List Char :=
  hrp ++ ['1'] ++ (data ++ bech32_create_checksum hrp data).map (fun d => CHARSET.getD d ' ')

/-- Python `bech.rfind(c)`: index of the last occurrence, if any. -/
def pyRfind : List Char → Char → Option ℕ
  | [], _ => none
  | x :: xs, c =>
      match pyRfind xs c with
      | some i => some (i + 1)
      | none => if x = c then some 0 else none

/-- Python `CHARSET.find(x)` under the guarantee `x in CHARSET`. -/
def charsetFind (c : Char) : ℕ := CHARSET.indexOf c

/-- Function `bech32_decode`: rejects non-printable or mixed-case input,
lowercases, splits on the last `'1'`, enforces the length window, maps the
data part through the charset and verifies the checksum, returning the
human-readable prefix and the data values without the 6 checksum symbols. -/
def bech32_decode (bech : List Char) : Option (List Char × List ℕ) :=
  if bech.any (fun c => c.toNat < 33 ∨ 126 < c.toNat) ∨
      (pyLowerL bech ≠ bech ∧ pyUpperL bech ≠ bech) then none
  else
    let low := pyLowerL bech
    match pyRfind low '1' with
    | none => none
    | some pos =>
        if pos < 1 ∨ pos + 7 > low.length ∨ low.length > 90 then none
        else if (low.drop (pos + 1)).all (fun c => CHARSET.contains c) then
          let hrp := low.take pos
          let data := (low.drop (pos + 1)).map charsetFind
          if bech32_verify_checksum hrp data then
            some (hrp, data.take (data.length - 6))
          else none
        else none

/-! ## Function `convertbits` (general power-of-2 base conversion) -/

/-- The inner `while bits >= tobits` loop of `convertbits`, emitting the top
`tobits` bits of the accumulator while enough are pending.  `fuel` only
bounds the iteration count (any `fuel >= bits` is exact for `tobits >= 1`),
keeping the recursion structural so the kernel can evaluate it. -/
def cbEmitFuel (tobits maxv acc : ℕ) : ℕ → ℕ → List ℕ → ℕ × List ℕ
  | 0, bits, ret => (bits, ret)
  | fuel + 1, bits, ret =>
      if tobits ≤ bits then
        cbEmitFuel tobits maxv acc fuel (bits - tobits)
          (ret ++ [(acc >>> (bits - tobits)) &&& maxv])
      else (bits, ret)

/-- The inner loop of `convertbits` with its exact fuel. -/
def cbEmit (tobits maxv acc bits : ℕ) (ret : List ℕ) : ℕ × List ℕ :=
  cbEmitFuel tobits maxv acc bits bits ret

/-- The `for value in data` loop of `convertbits`; `none` models the
`return None` on an out-of-range input value. -/
def convertbitsLoop (frombits tobits maxv max_acc : ℕ) :
    List ℕ → ℕ → ℕ → List ℕ → Option (ℕ × ℕ × List ℕ)
  | [], acc, bits, ret => some (acc, bits, ret)
  | v :: rest, acc, bits, ret =>
      if 2 ^ frombits ≤ v then none
      else
        let acc' := ((acc <<< frombits) ||| v) &&& max_acc
        match cbEmit tobits maxv acc' (bits + frombits) ret with
        | (bits', ret') => convertbitsLoop frombits tobits maxv max_acc rest acc' bits' ret'

/-- Function `convertbits(data, frombits, tobits, pad)`: general power-of-2
base conversion with optional zero-padding of the final group; without
padding, leftover bits must number fewer than `frombits` and be zero. -/
def convertbits (data : List ℕ) (frombits tobits : ℕ) (pad : Bool) : Option (List ℕ) :=
  let maxv := (1 <<< tobits) - 1
  let max_acc := (1 <<< (frombits + tobits - 1)) - 1
  match convertbitsLoop frombits tobits maxv max_acc data 0 0 [] with
  | none => none
  | some (acc, bits, ret) =>
      if pad then
        if bits ≠ 0 then some (ret ++ [(acc <<< (tobits - bits)) &&& maxv]) else some ret
      else if frombits ≤ bits ∨ (acc <<< (tobits - bits)) &&& maxv ≠ 0 then none
      else some ret

/-! ## UTF-8 (Python `bytes.decode('utf-8')` / `str.encode('utf-8')`) -/

/-- Strict RFC-3629 UTF-8 decoding of a byte list into code points,
rejecting overlong forms, surrogates, and values above `U+10FFFF` —
the failure is Python's `UnicodeDecodeError`.  The `fuel` argument only
bounds the number of decoded code points (any `fuel` at least the byte
count is exact, since every code point consumes at least one byte); it
keeps the recursion structural so the kernel can evaluate it. -/
def utf8DecodeFuel : ℕ → List ℕ → Option (List ℕ)
  | _, [] => some []
  | 0, _ :: _ => none
  | fuel + 1, b :: rest =>
      if b < 0x80 then (utf8DecodeFuel fuel rest).map (b :: ·)
      else if b < 0xC2 then none
      else if b < 0xE0 then
        if rest.length < 1 then none
        else
          let b1 := rest.getD 0 0
          if 0x80 ≤ b1 ∧ b1 < 0xC0 then
            (utf8DecodeFuel fuel (rest.drop 1)).map (((b - 0xC0) * 64 + (b1 - 0x80)) :: ·)
          else none
      else if b < 0xF0 then
        if rest.length < 2 then none
        else
          let b1 := rest.getD 0 0
          let b2 := rest.getD 1 0
          if (0x80 ≤ b1 ∧ b1 < 0xC0) ∧ (0x80 ≤ b2 ∧ b2 < 0xC0) ∧
              (b = 0xE0 → 0xA0 ≤ b1) ∧ (b = 0xED → b1 < 0xA0) then
            (utf8DecodeFuel fuel (rest.drop 2)).map
              (((b - 0xE0) * 4096 + (b1 - 0x80) * 64 + (b2 - 0x80)) :: ·)
          else none
      else if b < 0xF5 then
        if rest.length < 3 then none
        else
          let b1 := rest.getD 0 0
          let b2 := rest.getD 1 0
          let b3 := rest.getD 2 0
          if (0x80 ≤ b1 ∧ b1 < 0xC0) ∧ (0x80 ≤ b2 ∧ b2 < 0xC0) ∧
              (0x80 ≤ b3 ∧ b3 < 0xC0) ∧
              (b = 0xF0 → 0x90 ≤ b1) ∧ (b = 0xF4 → b1 < 0x90) then
            (utf8DecodeFuel fuel (rest.drop 3)).map
              (((b - 0xF0) * 262144 + (b1 - 0x80) * 4096
                + (b2 - 0x80) * 64 + (b3 - 0x80)) :: ·)
          else none
      else none

/-- Python `bytes(bs).decode('utf-8')`: strict UTF-8 decoding, with the
exact fuel. -/
def utf8Decode (bs : List ℕ) : Option (List ℕ) := utf8DecodeFuel bs.length bs

/-- UTF-8 encoding of one code point. -/
def utf8EncodeChar (c : ℕ) : List ℕ :=
  if c < 0x80 then [c]
  else if c < 0x800 then [0xC0 + c / 64, 0x80 + c % 64]
  else if c < 0x10000 then [0xE0 + c / 4096, 0x80 + (c / 64) % 64, 0x80 + c % 64]
  else [0xF0 + c / 262144, 0x80 + (c / 4096) % 64, 0x80 + (c / 64) % 64, 0x80 + c % 64]

/-- Python `url.encode('utf-8')` on a string of code points. -/
def utf8Encode (s : List Char) : List ℕ :=
  (s.map (fun c => utf8EncodeChar c.toNat)).flatten

/-! ## The LNURL codec (`src/lnurl/tools.py`) -/

/-- The failures of the decode path, by the `ValueError`/`TypeError` the
Python code raises:
`invalidHRP` is `ValueError('Invalid Human Readable Prefix (HRP): {hrp}.')`,
raised with `hrp = None` when `bech32_decode` rejects the string (bad
charset, bad checksum, mixed case, bad length) and with the offending prefix
when the prefix is not allowed; `invalidLnurl` is `ValueError('Invalid
LNURL.')` re-raised from a `UnicodeDecodeError`; `typeError` is the uncaught
`TypeError` from `bytes(None)` when `convertbits` returns `None`. -/
inductive CodecError where
  | invalidHRP (hrp : Option (List Char))
  | invalidLnurl
  | typeError
deriving DecidableEq

/-- Helper `_bech32_decode(bech, allowed_hrp=...)` of `tools.py`. -/
def pyBech32Decode (bech : List Char) (allowed_hrp : Option (List (List Char))) :
    Except CodecError (List Char × List ℕ) :=
  match bech32_decode bech with
  | none => Except.error (CodecError.invalidHRP none)
  | some (hrp, data) =>
      match allowed_hrp with
      | some allowed =>
          if allowed.contains hrp then Except.ok (hrp, data)
          else Except.error (CodecError.invalidHRP (some hrp))
      | none => Except.ok (hrp, data)

/-- Python `s.replace(pat, '')` (all occurrences, left to right); the fuel
argument is the length of `s`, exact whenever `pat` is nonempty. -/
def removeAllFuel (pat : List Char) : ℕ → List Char → List Char
  | 0, s => s
  | fuel + 1, s =>
      match s with
      | [] => []
      | x :: xs =>
          if pat.isPrefixOf (x :: xs)
          then removeAllFuel pat fuel ((x :: xs).drop pat.length)
          else x :: removeAllFuel pat fuel xs

/-- The `lightning:` prefix stripping of `_lnurl_decode`: when the string
starts with `lightning:`, every occurrence is removed (Python `replace`). -/
def stripLightning (s : List Char) : List Char :=
  if "lightning:".toList.isPrefixOf s
  then removeAllFuel "lightning:".toList s.length s
  else s

/-- Function `_lnurl_decode` of `tools.py`. -/
def lnurlDecode (lnurl : List Char) : Except CodecError (List Char) :=
  match pyBech32Decode (stripLightning lnurl) (some ["lnurl".toList]) with
  | Except.error e => Except.error e
  | Except.ok (_, data) =>
      match convertbits data 5 8 false with
      | none => Except.error CodecError.typeError
      | some bytes =>
          match utf8Decode bytes with
          | none => Except.error CodecError.invalidLnurl
          | some cps => Except.ok (cps.map Char.ofNat)

/-- Function `_url_encode` of `tools.py` (`none` would be the unreachable
failure of `convertbits` on a byte over 255). -/
def urlEncode (url : List Char) : Option (List Char) :=
  (convertbits (utf8Encode url) 8 5 true).map
    (fun data => pyUpperL (bech32_encode "lnurl".toList data))

/-! ## Bit-stream semantics used to reason about `convertbits` -/

/-- The `w` low bits of `v`, most significant first. -/
def natBits : ℕ → ℕ → List Bool
  | 0, _ => []
  | w + 1, v => Nat.testBit v w :: natBits w v

/-- The value of a big-endian bit list. -/
def bitsVal (bs : List Bool) : ℕ :=
  bs.foldl (fun a b => 2 * a + cond b 1 0) 0

/-- The concatenated `w`-bit representations of a value list. -/
def bitsOfList (w : ℕ) (xs : List ℕ) : List Bool :=
  (xs.map (natBits w)).flatten

/-! ## Dictionary lemmas -/

theorem dictLookup_dictUpdate_self (d : PyDict) (k : String) (v : JVal) :
    dictLookup (dictUpdate d k v) k = some v := by
  induction d with
  | nil => simp [dictUpdate, dictLookup]
  | cons p rest ih =>
      obtain ⟨k0, v0⟩ := p
      by_cases h0 : k0 = k
      · simp [dictUpdate, h0, dictLookup]
      · simp [dictUpdate, h0, dictLookup, ih]

theorem dictLookup_dictUpdate_ne (d : PyDict) (k k' : String) (v : JVal)
    (h : k' ≠ k) : dictLookup (dictUpdate d k v) k' = dictLookup d k' := by
  induction d with
  | nil => simp [dictUpdate, dictLookup, Ne.symm h]
  | cons p rest ih =>
      obtain ⟨k0, v0⟩ := p
      by_cases h0 : k0 = k
      · subst h0
        simp [dictUpdate, dictLookup, Ne.symm h]
      · simp only [dictUpdate, if_neg h0, dictLookup]
        by_cases h1 : k0 = k'
        · rw [if_pos h1, if_pos h1]
        · rw [if_neg h1, if_neg h1]
          exact ih

theorem dictLookup_dictPop_ne (d : PyDict) (k k' : String)
    (h : k' ≠ k) : dictLookup (dictPop d k) k' = dictLookup d k' := by
  induction d with
  | nil => simp [dictPop, dictLookup]
  | cons p rest ih =>
      obtain ⟨k0, v0⟩ := p
      by_cases h0 : k0 = k
      · subst h0
        simp [dictPop, dictLookup, Ne.symm h]
      · simp only [dictPop, if_neg h0, dictLookup]
        by_cases h1 : k0 = k'
        · rw [if_pos h1, if_pos h1]
        · rw [if_neg h1, if_neg h1]
          exact ih

theorem getField_same (d : PyDict) (k : String) :
    getField d k k = dictLookup d k := by
  unfold getField
  cases dictLookup d k <;> simp

/-! ## Claims about `LnurlResponse.from_dict` -/

/-- Claim C2: a mapping whose `status` value is a string equal to `"error"`
case-insensitively is always handled by the Error branch of
`LnurlResponse.from_dict` — even when a `tag` key is present, tag dispatch is
never reached: the call either raises the opaque classification error or
returns the Error variant with status normalized to `"ERROR"`; and whenever
the mapping also carries a string `reason`, it returns exactly the Error
variant built from the normalized status and that reason. -/
theorem fromDict_status_str (d : PyDict) (s : String)
    (hs : dictLookup d "status" = some (JVal.str s)) :
    fromDict d = if pyUpper s = "ERROR"
      then (collapse
              (LnurlErrorResponse.construct (dictUpdate d "status" (JVal.str (pyUpper s))))
              Resp.error,
            dictUpdate d "status" (JVal.str (pyUpper s)))
      else fromDictRest d := by
  unfold fromDict
  rw [hs]

theorem c2_error_branch_precedence (d : PyDict) (s : String)
    (hs : dictLookup d "status" = some (JVal.str s))
    (he : pyUpper s = "ERROR") :
    ((fromDict d).1 = Except.error () ∨
      ∃ r, (fromDict d).1 = Except.ok (Resp.error ⟨"ERROR", r⟩)) ∧
    (∀ r, dictLookup d "reason" = some (JVal.str r) →
      (fromDict d).1 = Except.ok (Resp.error ⟨"ERROR", r⟩)) := by
  have key : fromDict d =
      (collapse (LnurlErrorResponse.construct (dictUpdate d "status" (JVal.str "ERROR")))
        Resp.error, dictUpdate d "status" (JVal.str "ERROR")) := by
    rw [fromDict_status_str d s hs, he]
    simp
  have hupd : dictLookup (dictUpdate d "status" (JVal.str "ERROR")) "status"
      = some (JVal.str "ERROR") := dictLookup_dictUpdate_self d _ _
  have hlit : vLiteral (dictUpdate d "status" (JVal.str "ERROR")) "status" "ERROR"
      = Except.ok "ERROR" := by
    unfold vLiteral
    rw [getField_same, hupd]
    simp
  have hreason : dictLookup (dictUpdate d "status" (JVal.str "ERROR")) "reason"
      = dictLookup d "reason" :=
    dictLookup_dictUpdate_ne d "status" "reason" _ (by decide)
  rw [key]
  constructor
  · cases hr : vStr (dictUpdate d "status" (JVal.str "ERROR")) "reason" with
    | error e =>
        left
        simp [collapse, LnurlErrorResponse.construct, hlit, hr, exBind_ok, exBind_error]
    | ok r =>
        right
        refine ⟨r, ?_⟩
        simp [collapse, LnurlErrorResponse.construct, hlit, hr, exBind_ok, exBind_error]
  · intro r hr
    have hv : vStr (dictUpdate d "status" (JVal.str "ERROR")) "reason" = Except.ok r := by
      unfold vStr
      rw [getField_same, hreason, hr]
    simp [collapse, LnurlErrorResponse.construct, hlit, hv, exBind_ok, exBind_error]

/-- Witness for C2 at a concrete mapping that carries both a lowercase
error status and a recognized tag. -/
theorem c2_witness :
    ((fromDict [("status", JVal.str "error"), ("reason", JVal.str "why"),
        ("tag", JVal.str "payRequest")]).1 = Except.error () ∨
      ∃ r, (fromDict [("status", JVal.str "error"), ("reason", JVal.str "why"),
        ("tag", JVal.str "payRequest")]).1 = Except.ok (Resp.error ⟨"ERROR", r⟩)) ∧
    (∀ r, dictLookup [("status", JVal.str "error"), ("reason", JVal.str "why"),
        ("tag", JVal.str "payRequest")] "reason" = some (JVal.str r) →
      (fromDict [("status", JVal.str "error"), ("reason", JVal.str "why"),
        ("tag", JVal.str "payRequest")]).1 = Except.ok (Resp.error ⟨"ERROR", r⟩)) :=
  c2_error_branch_precedence _ "error" rfl (by rfl)

/-- Claim C9: a mapping whose `status` value is not a string makes
`d['status'].upper()` raise an `AttributeError`, collapsed to the single
opaque classification error — even when a recognized `tag` is present — and
the mapping is left untouched. -/
theorem c9_nonstring_status (d : PyDict) (v : JVal)
    (hs : dictLookup d "status" = some v)
    (hv : ∀ s, v ≠ JVal.str s) :
    fromDict d = (Except.error (), d) := by
  unfold fromDict
  rw [hs]
  cases v with
  | str s => exact absurd rfl (hv s)
  | num n => rfl
  | bool b => rfl
  | null => rfl
  | arr xs => rfl
  | obj fs => rfl

/-- Witness for C9: an integer `status` together with a recognized tag and a
full, otherwise-valid payRequest payload still raises. -/
theorem c9_witness :
    fromDict [("status", JVal.num 3), ("tag", JVal.str "payRequest"),
        ("callback", JVal.str "https://x.com/cb"),
        ("minSendable", JVal.num 1000), ("maxSendable", JVal.num 2000),
        ("metadata", JVal.str "[[\"text/plain\",\"hi\"]]")]
      = (Except.error (),
        [("status", JVal.num 3), ("tag", JVal.str "payRequest"),
        ("callback", JVal.str "https://x.com/cb"),
        ("minSendable", JVal.num 1000), ("maxSendable", JVal.num 2000),
        ("metadata", JVal.str "[[\"text/plain\",\"hi\"]]")]) :=
  c9_nonstring_status _ (JVal.num 3) rfl (fun _ h => JVal.noConfusion h)

/-- Claim C10: a mapping containing none of `status`, `tag`, `success_action`
is always classified as the bare Success variant with status `"OK"`, all
other keys (including `successAction`) being silently ignored, and the
mapping is returned unchanged. -/
theorem c10_bare_success (d : PyDict)
    (h1 : dictLookup d "status" = none)
    (h2 : dictLookup d "tag" = none)
    (h3 : dictLookup d "success_action" = none) :
    fromDict d = (Except.ok (Resp.success ⟨"OK"⟩), d) := by
  unfold fromDict
  rw [h1]
  unfold fromDictRest
  rw [h2, h3]
  unfold LnurlSuccessResponse.construct vLiteral
  rw [getField_same, h1]
  rfl

/-- Witness for C10: a mapping whose only keys are `successAction` and `pr`
(note the camelCase key, which the code does not treat as a Pay Action
marker) classifies as bare Success. -/
theorem c10_witness :
    fromDict [("successAction", JVal.null), ("pr", JVal.str "lnbc123abc")]
      = (Except.ok (Resp.success ⟨"OK"⟩),
         [("successAction", JVal.null), ("pr", JVal.str "lnbc123abc")]) :=
  c10_bare_success _ rfl rfl rfl

/-! ## Claim C4: the Pay Action branch -/

/-- Counterexample to claim C4: a mapping with no error status and no tag
whose only success-action marker is the camelCase key `successAction` is NOT
classified as the Pay Action variant — `from_dict` only tests for the exact
key `'success_action'`, so the payload falls through to the bare Success
variant. -/
theorem c4_counterexample :
    fromDict [("successAction", JVal.obj []), ("pr", JVal.str "lnbc123abc")]
      = (Except.ok (Resp.success ⟨"OK"⟩),
         [("successAction", JVal.obj []), ("pr", JVal.str "lnbc123abc")]) := rfl

/-- Claim C4 (amended): only the exact key `success_action` triggers the Pay
Action branch; for any mapping with no case-insensitive `"error"` status, no
`tag`, and a `success_action` key, `from_dict` either returns the Pay Action
variant or raises the opaque classification error (it never returns the bare
Success variant or any other variant). -/
theorem c4_amended_success_action_branch (d : PyDict)
    (hstat : dictLookup d "status" = none ∨
      ∃ s, dictLookup d "status" = some (JVal.str s) ∧ pyUpper s ≠ "ERROR")
    (htag : dictLookup d "tag" = none)
    (hsa : ∃ v, dictLookup d "success_action" = some v) :
    (fromDict d).1 = Except.error () ∨
      ∃ r, (fromDict d).1 = Except.ok (Resp.payAction r) := by
  obtain ⟨v, hv⟩ := hsa
  have key : fromDict d = (collapse (LnurlPayActionResponse.construct d) Resp.payAction, d) := by
    have hrest : fromDictRest d
        = (collapse (LnurlPayActionResponse.construct d) Resp.payAction, d) := by
      unfold fromDictRest
      rw [htag, hv]
    rcases hstat with hnone | ⟨s, hsome, hne⟩
    · unfold fromDict
      rw [hnone, hrest]
    · rw [fromDict_status_str d s hsome, if_neg hne, hrest]
  rw [key]
  cases hc : LnurlPayActionResponse.construct d with
  | error e => left; simp [collapse, hc]
  | ok r => right; exact ⟨r, by simp [collapse, hc]⟩

/-- Witness for the amended C4 at a concrete mapping keyed by the exact
`success_action` name. -/
theorem c4_amended_witness :
    (fromDict [("success_action", JVal.null), ("pr", JVal.str "lnbc123abc")]).1
        = Except.error () ∨
      ∃ r, (fromDict [("success_action", JVal.null), ("pr", JVal.str "lnbc123abc")]).1
        = Except.ok (Resp.payAction r) :=
  c4_amended_success_action_branch _ (Or.inl rfl) rfl ⟨JVal.null, rfl⟩

/-! ## Claim C6: `from_dict` mutates its argument -/

/-- Counterexample to claim C6: `from_dict` is not side-effect-free — on a
lowercase error payload it rewrites the `status` key of the mapping in place
to `"ERROR"`, so the mapping read back after the call differs from the one
passed in. -/
theorem c6_counterexample :
    (fromDict c6Dict).2 = [("status", JVal.str "ERROR"), ("reason", JVal.str "oops")] ∧
    dictLookup (fromDict c6Dict).2 "status" ≠ dictLookup c6Dict "status" := by
  constructor
  · rfl
  · intro h
    rw [show dictLookup (fromDict c6Dict).2 "status" = some (JVal.str "ERROR") from rfl,
        show dictLookup c6Dict "status" = some (JVal.str "error") from rfl] at h
    have h1 := Option.some.inj h
    injection h1 with h2
    exact absurd h2 (by decide)

/-- Helper for C6: the tag-branch and fallthrough parts of `from_dict` touch
no key other than `status`. -/
theorem fromDictRest_frame (d : PyDict) (k : String) (hk : k ≠ "status") :
    dictLookup (fromDictRest d).2 k = dictLookup d k := by
  unfold fromDictRest
  cases ht : dictLookup d "tag" with
  | some tv => exact dictLookup_dictPop_ne d "status" k hk
  | none => cases hsa : dictLookup d "success_action" <;> rfl

/-- Claim C6 (amended): `from_dict` may mutate its argument, but only at the
`status` key — it uppercases `status` in place in the error branch and
removes `status` in the tag branch; every other key of the mapping is left
unchanged, whether classification succeeds or fails. -/
theorem c6_amended_frame (d : PyDict) (k : String) (hk : k ≠ "status") :
    dictLookup (fromDict d).2 k = dictLookup d k := by
  cases hs : dictLookup d "status" with
  | none =>
      have hfd : fromDict d = fromDictRest d := by
        unfold fromDict
        rw [hs]
      rw [hfd]
      exact fromDictRest_frame d k hk
  | some v =>
      have herrfd : (∀ x, v ≠ JVal.str x) → fromDict d = (Except.error (), d) := by
        intro hne
        unfold fromDict
        rw [hs]
        cases v with
        | str s => exact absurd rfl (hne s)
        | num n => rfl
        | bool b => rfl
        | null => rfl
        | arr a => rfl
        | obj o => rfl
      cases v with
      | str s =>
          rw [fromDict_status_str d s hs]
          by_cases he : pyUpper s = "ERROR"
          · rw [if_pos he]
            exact dictLookup_dictUpdate_ne d "status" k _ hk
          · rw [if_neg he]
            exact fromDictRest_frame d k hk
      | num n => rw [herrfd (fun x h => JVal.noConfusion h)]
      | bool b => rw [herrfd (fun x h => JVal.noConfusion h)]
      | null => rw [herrfd (fun x h => JVal.noConfusion h)]
      | arr a => rw [herrfd (fun x h => JVal.noConfusion h)]
      | obj o => rw [herrfd (fun x h => JVal.noConfusion h)]

/-- Witness for the amended C6: the `reason` key of the mutated mapping is
untouched. -/
theorem c6_amended_witness :
    dictLookup (fromDict c6Dict).2 "reason" = dictLookup c6Dict "reason" :=
  c6_amended_frame c6Dict "reason" (by decide)

/-! ## Claim C8: response values are mutable -/

/-- Counterexample to claim C8: response instances are not immutable — with
the source's `Config` (which leaves pydantic's `allow_mutation = True` and
`validate_assignment = False` defaults in place), a successfully constructed
`LnurlPayResponse` accepts a reassignment of `max_sendable` that runs no
validation, leaving an observable instance that violates the
`max_sendable >= min_sendable` invariant established at construction. -/
theorem c8_counterexample :
    LnurlPayResponse.construct c8Dict
      = Except.ok ⟨"payRequest", "https://a.co/q", 1000, 1000, "[[\"text/plain\",\"x\"]]"⟩ ∧
    LnurlPayResponse.setMaxSendable lnurlResponseModelConfig
        ⟨"payRequest", "https://a.co/q", 1000, 1000, "[[\"text/plain\",\"x\"]]"⟩ 5
      = Except.ok ⟨"payRequest", "https://a.co/q", 1000, 5, "[[\"text/plain\",\"x\"]]"⟩ ∧
    (⟨"payRequest", "https://a.co/q", 1000, 5, "[[\"text/plain\",\"x\"]]"⟩
        : LnurlPayResponse).max_sendable
      < (⟨"payRequest", "https://a.co/q", 1000, 5, "[[\"text/plain\",\"x\"]]"⟩
        : LnurlPayResponse).min_sendable := by
  refine ⟨rfl, rfl, by norm_num⟩

/-- Claim C8 (amended): with the source's model configuration, field
reassignment on a constructed instance always succeeds and bypasses
validation entirely (pydantic defaults `allow_mutation = True`,
`validate_assignment = False`); construction is the only point at which
validation runs. -/
theorem c8_amended_mutable (r : LnurlPayResponse) (v : ℕ) :
    LnurlPayResponse.setMaxSendable lnurlResponseModelConfig r v
      = Except.ok { r with max_sendable := v } := by
  unfold LnurlPayResponse.setMaxSendable lnurlResponseModelConfig
  simp

/-! ## Claim C3: the range validators -/

theorem payDict_tag (cb md : String) (a b : ℕ) :
    vLiteral (payDict cb md a b) "tag" "payRequest" = Except.ok "payRequest" := rfl

theorem payDict_callback (cb md : String) (a b : ℕ) (hcb : httpsUrlValid cb = true) :
    vHttpsUrl (payDict cb md a b) "callback" = Except.ok cb := by
  unfold vHttpsUrl
  rw [show getField (payDict cb md a b) "callback" "callback" = some (JVal.str cb) from rfl]
  simp [hcb]

theorem payDict_min (cb md : String) (a b : ℕ) :
    vMsat (payDict cb md a b) "minSendable" "min_sendable" = Except.ok a := by
  unfold vMsat
  rw [show getField (payDict cb md a b) "minSendable" "min_sendable"
      = some (JVal.num a) from rfl]
  simp [parseMilliSatoshi]

theorem payDict_max (cb md : String) (a b : ℕ) :
    vMsat (payDict cb md a b) "maxSendable" "max_sendable" = Except.ok b := by
  unfold vMsat
  rw [show getField (payDict cb md a b) "maxSendable" "max_sendable"
      = some (JVal.num b) from rfl]
  simp [parseMilliSatoshi]

theorem payDict_metadata (cb md : String) (a b : ℕ) (hmd : lnurlPayMetadataValid md = true) :
    vMetadata (payDict cb md a b) "metadata" = Except.ok md := by
  unfold vMetadata
  rw [show getField (payDict cb md a b) "metadata" "metadata" = some (JVal.str md) from rfl]
  simp [hmd]

theorem withdrawDict_tag (cb k1 : String) (a b : ℕ) :
    vLiteral (withdrawDict cb k1 a b) "tag" "withdrawRequest" = Except.ok "withdrawRequest" := rfl

theorem withdrawDict_callback (cb k1 : String) (a b : ℕ) (hcb : httpsUrlValid cb = true) :
    vHttpsUrl (withdrawDict cb k1 a b) "callback" = Except.ok cb := by
  unfold vHttpsUrl
  rw [show getField (withdrawDict cb k1 a b) "callback" "callback" = some (JVal.str cb) from rfl]
  simp [hcb]

theorem withdrawDict_k1 (cb k1 : String) (a b : ℕ) :
    vStr (withdrawDict cb k1 a b) "k1" = Except.ok k1 := rfl

theorem withdrawDict_min (cb k1 : String) (a b : ℕ) :
    vMsat (withdrawDict cb k1 a b) "minWithdrawable" "min_withdrawable" = Except.ok a := by
  unfold vMsat
  rw [show getField (withdrawDict cb k1 a b) "minWithdrawable" "min_withdrawable"
      = some (JVal.num a) from rfl]
  simp [parseMilliSatoshi]

theorem withdrawDict_max (cb k1 : String) (a b : ℕ) :
    vMsat (withdrawDict cb k1 a b) "maxWithdrawable" "max_withdrawable" = Except.ok b := by
  unfold vMsat
  rw [show getField (withdrawDict cb k1 a b) "maxWithdrawable" "max_withdrawable"
      = some (JVal.num b) from rfl]
  simp [parseMilliSatoshi]

theorem withdrawDict_dd (cb k1 : String) (a b : ℕ) :
    vStrDefault (withdrawDict cb k1 a b) "defaultDescription" "default_description" ""
      = Except.ok "" := rfl

/-- Helper for C3: a successfully constructed `LnurlPayResponse` satisfies
`min_sendable <= max_sendable`. -/
theorem payResponse_ok_range (d : PyDict) (r : LnurlPayResponse)
    (hok : LnurlPayResponse.construct d = Except.ok r) :
    r.min_sendable ≤ r.max_sendable := by
  unfold LnurlPayResponse.construct at hok
  cases h1 : vLiteral d "tag" "payRequest" with
  | error e => rw [h1, exBind_error] at hok; exact absurd hok (by simp)
  | ok tag =>
  rw [h1] at hok
  simp only [exBind_ok] at hok
  cases h2 : vHttpsUrl d "callback" with
  | error e => rw [h2, exBind_error] at hok; exact absurd hok (by simp)
  | ok cb =>
  rw [h2] at hok
  simp only [exBind_ok] at hok
  cases h3 : vMsat d "minSendable" "min_sendable" with
  | error e => rw [h3, exBind_error] at hok; exact absurd hok (by simp)
  | ok minS =>
  rw [h3] at hok
  simp only [exBind_ok] at hok
  cases h4 : vMsat d "maxSendable" "max_sendable" with
  | error e => rw [h4, exBind_error] at hok; exact absurd hok (by simp)
  | ok maxS =>
  rw [h4] at hok
  simp only [exBind_ok] at hok
  by_cases hlt : maxS < minS
  · rw [if_pos hlt] at hok
    exact absurd hok (by simp)
  · rw [if_neg hlt] at hok
    cases h5 : vMetadata d "metadata" with
    | error e => rw [h5, exBind_error] at hok; exact absurd hok (by simp)
    | ok md =>
        rw [h5] at hok
        simp only [exBind_ok, Except.ok.injEq] at hok
        rw [← hok]
        exact Nat.le_of_not_lt hlt

/-- Helper for C3: a successfully constructed `LnurlWithdrawResponse`
satisfies `min_withdrawable <= max_withdrawable`. -/
theorem withdrawResponse_ok_range (d : PyDict) (r : LnurlWithdrawResponse)
    (hok : LnurlWithdrawResponse.construct d = Except.ok r) :
    r.min_withdrawable ≤ r.max_withdrawable := by
  unfold LnurlWithdrawResponse.construct at hok
  cases h1 : vLiteral d "tag" "withdrawRequest" with
  | error e => rw [h1, exBind_error] at hok; exact absurd hok (by simp)
  | ok tag =>
  rw [h1] at hok
  simp only [exBind_ok] at hok
  cases h2 : vHttpsUrl d "callback" with
  | error e => rw [h2, exBind_error] at hok; exact absurd hok (by simp)
  | ok cb =>
  rw [h2] at hok
  simp only [exBind_ok] at hok
  cases h3 : vStr d "k1" with
  | error e => rw [h3, exBind_error] at hok; exact absurd hok (by simp)
  | ok k1 =>
  rw [h3] at hok
  simp only [exBind_ok] at hok
  cases h4 : vMsat d "minWithdrawable" "min_withdrawable" with
  | error e => rw [h4, exBind_error] at hok; exact absurd hok (by simp)
  | ok minW =>
  rw [h4] at hok
  simp only [exBind_ok] at hok
  cases h5 : vMsat d "maxWithdrawable" "max_withdrawable" with
  | error e => rw [h5, exBind_error] at hok; exact absurd hok (by simp)
  | ok maxW =>
  rw [h5] at hok
  simp only [exBind_ok] at hok
  by_cases hlt : maxW < minW
  · rw [if_pos hlt] at hok
    exact absurd hok (by simp)
  · rw [if_neg hlt] at hok
    cases h6 : vStrDefault d "defaultDescription" "default_description" "" with
    | error e => rw [h6, exBind_error] at hok; exact absurd hok (by simp)
    | ok dd =>
        rw [h6] at hok
        simp only [exBind_ok, Except.ok.injEq] at hok
        rw [← hok]
        exact Nat.le_of_not_lt hlt

/-- Claim C3: for both `LnurlPayResponse` and `LnurlWithdrawResponse` (with
otherwise-valid fields), construction with maximum strictly below minimum
fails with the validator's `ValueError` whose message names both field names;
construction with maximum equal to minimum succeeds; and every successfully
constructed instance satisfies maximum >= minimum. -/
theorem c3_range_validators (cb k1 md : String) (minv maxv : ℕ)
    (hcb : httpsUrlValid cb = true) (hmd : lnurlPayMetadataValid md = true) :
    (maxv < minv →
      LnurlPayResponse.construct (payDict cb md minv maxv)
        = Except.error (PErr.valueError payRangeMsg)) ∧
    (LnurlPayResponse.construct (payDict cb md minv minv)
        = Except.ok ⟨"payRequest", cb, minv, minv, md⟩) ∧
    (∀ d r, LnurlPayResponse.construct d = Except.ok r →
      r.min_sendable ≤ r.max_sendable) ∧
    (maxv < minv →
      LnurlWithdrawResponse.construct (withdrawDict cb k1 minv maxv)
        = Except.error (PErr.valueError withdrawRangeMsg)) ∧
    (LnurlWithdrawResponse.construct (withdrawDict cb k1 minv minv)
        = Except.ok ⟨"withdrawRequest", cb, k1, minv, minv, ""⟩) ∧
    (∀ d r, LnurlWithdrawResponse.construct d = Except.ok r →
      r.min_withdrawable ≤ r.max_withdrawable) := by
  refine ⟨?_, ?_, payResponse_ok_range, ?_, ?_, withdrawResponse_ok_range⟩
  · intro hlt
    simp only [LnurlPayResponse.construct, payDict_tag, payDict_callback cb md minv maxv hcb,
      payDict_min, payDict_max, exBind_ok]
    rw [if_pos hlt]
  · simp only [LnurlPayResponse.construct, payDict_tag, payDict_callback cb md minv minv hcb,
      payDict_min, payDict_max, exBind_ok]
    rw [if_neg (lt_irrefl minv)]
    simp only [payDict_metadata cb md minv minv hmd, exBind_ok]
  · intro hlt
    simp only [LnurlWithdrawResponse.construct, withdrawDict_tag,
      withdrawDict_callback cb k1 minv maxv hcb, withdrawDict_k1,
      withdrawDict_min, withdrawDict_max, exBind_ok]
    rw [if_pos hlt]
  · simp only [LnurlWithdrawResponse.construct, withdrawDict_tag,
      withdrawDict_callback cb k1 minv minv hcb, withdrawDict_k1,
      withdrawDict_min, withdrawDict_max, exBind_ok]
    rw [if_neg (lt_irrefl minv)]
    simp only [withdrawDict_dd, exBind_ok]

/-- Witness for C3 at concrete field values (bounds 5 > 3 for the failure
half, equal bounds 5 = 5 for the success half). -/
theorem c3_witness :
    ((3 : ℕ) < 5 →
      LnurlPayResponse.construct (payDict "https://x.com/cb" "[[\"text/plain\",\"hi\"]]" 5 3)
        = Except.error (PErr.valueError payRangeMsg)) ∧
    (LnurlPayResponse.construct (payDict "https://x.com/cb" "[[\"text/plain\",\"hi\"]]" 5 5)
        = Except.ok ⟨"payRequest", "https://x.com/cb", 5, 5, "[[\"text/plain\",\"hi\"]]"⟩) ∧
    (∀ d r, LnurlPayResponse.construct d = Except.ok r →
      r.min_sendable ≤ r.max_sendable) ∧
    ((3 : ℕ) < 5 →
      LnurlWithdrawResponse.construct (withdrawDict "https://x.com/cb" "k1val" 5 3)
        = Except.error (PErr.valueError withdrawRangeMsg)) ∧
    (LnurlWithdrawResponse.construct (withdrawDict "https://x.com/cb" "k1val" 5 5)
        = Except.ok ⟨"withdrawRequest", "https://x.com/cb", "k1val", 5, 5, ""⟩) ∧
    (∀ d r, LnurlWithdrawResponse.construct d = Except.ok r →
      r.min_withdrawable ≤ r.max_withdrawable) :=
  c3_range_validators "https://x.com/cb" "k1val" "[[\"text/plain\",\"hi\"]]" 5 3
    (by rfl) (by rfl)


/-! ## Claim C5: satoshi conversions go through Python float division -/

theorem log2fuel_bounds (f : ℕ) : ∀ n : ℕ, 1 ≤ n → n ≤ f →
    2 ^ (log2fuel f n) ≤ n ∧ n < 2 ^ (log2fuel f n + 1) := by
  induction f with
  | zero => intro n h1 h2; omega
  | succ f ih =>
      intro n h1 h2
      by_cases hn : n < 2
      · have : n = 1 := by omega
        subst this
        simp [log2fuel]
      · have hrec := ih (n / 2) (by omega) (by
          have := Nat.div_lt_self (by omega : 0 < n) (by omega : 1 < 2)
          omega)
        unfold log2fuel
        rw [if_neg hn]
        constructor
        · calc 2 ^ (log2fuel f (n / 2) + 1) = 2 * 2 ^ (log2fuel f (n / 2)) := by ring
          _ ≤ 2 * (n / 2) := by omega
          _ ≤ n := by omega
        · have h2 : n < 2 * (2 ^ (log2fuel f (n / 2) + 1)) := by omega
          calc n < 2 * 2 ^ (log2fuel f (n / 2) + 1) := h2
          _ = 2 ^ (log2fuel f (n / 2) + 1 + 1) := by ring

theorem zpow_sub_ten (L : ℕ) : (2:ℚ) ^ ((L : ℤ) - 10) = (2 ^ L : ℚ) / 1024 := by
  rw [zpow_sub₀ (by norm_num : (2:ℚ) ≠ 0)]
  norm_num [zpow_natCast]

theorem flog2div1000_bounds (n : ℕ) (h : 1 ≤ n) :
    (2:ℚ) ^ (flog2div1000 n) ≤ (n : ℚ) / 1000 ∧
      (n : ℚ) / 1000 < 2 ^ (flog2div1000 n + 1) := by
  have hm1 : 1 ≤ 1024 * n / 1000 := by
    rw [Nat.le_div_iff_mul_le (by norm_num)]
    omega
  have hb := log2fuel_bounds (1024 * n / 1000) (1024 * n / 1000) hm1 le_rfl
  have hmod := Nat.div_add_mod (1024 * n) 1000
  have hr : 1024 * n % 1000 < 1000 := Nat.mod_lt _ (by norm_num)
  set m := 1024 * n / 1000 with hm
  set L := log2fuel m m with hL
  have hlow : 1000 * 2 ^ L ≤ 1024 * n := by
    calc 1000 * 2 ^ L ≤ 1000 * m := by omega
    _ ≤ 1024 * n := by omega
  have hhigh : 1024 * n < 1000 * 2 ^ (L + 1) := by
    have : m + 1 ≤ 2 ^ (L + 1) := hb.2
    calc 1024 * n < 1000 * (m + 1) := by omega
    _ ≤ 1000 * 2 ^ (L + 1) := by
      exact Nat.mul_le_mul_left 1000 this
  have hfl : flog2div1000 n = (L : ℤ) - 10 := by
    rw [flog2div1000, ← hm, ← hL]
  constructor
  · rw [hfl, zpow_sub_ten]
    rw [div_le_div_iff₀ (by norm_num) (by norm_num)]
    calc (2:ℚ) ^ L * 1000 = ((2 ^ L * 1000 : ℕ) : ℚ) := by push_cast; ring
    _ ≤ ((1024 * n : ℕ) : ℚ) := by exact_mod_cast (by omega : 2 ^ L * 1000 ≤ 1024 * n)
    _ = (n : ℚ) * 1024 := by push_cast; ring
  · have : flog2div1000 n + 1 = ((L + 1 : ℕ) : ℤ) - 10 := by rw [hfl]; push_cast; ring
    rw [this, zpow_sub_ten]
    rw [div_lt_div_iff₀ (by norm_num) (by norm_num)]
    calc (n : ℚ) * 1024 = ((1024 * n : ℕ) : ℚ) := by push_cast; ring
    _ < ((1000 * 2 ^ (L + 1) : ℕ) : ℚ) := by exact_mod_cast hhigh
    _ = (2:ℚ) ^ (L + 1) * 1000 := by push_cast; ring

theorem rhe_intCast (k : ℤ) : rhe (k : ℚ) = k := by
  unfold rhe
  rw [Int.floor_intCast]
  norm_num

theorem abs_rhe_sub (x : ℚ) : |(rhe x : ℚ) - x| ≤ 1 / 2 := by
  have h0 : (⌊x⌋ : ℚ) ≤ x := Int.floor_le x
  have h1 : x < ⌊x⌋ + 1 := Int.lt_floor_add_one x
  unfold rhe
  split_ifs with hc1 hc2 hc3 <;> rw [abs_le] <;> constructor <;> push_cast <;> linarith

theorem pyFloatDiv1000_err (n : ℕ) (h : 1 ≤ n) :
    |pyFloatDiv1000 n - (n : ℚ) / 1000| ≤ 2 ^ (flog2div1000 n - 53) := by
  unfold pyFloatDiv1000
  rw [if_neg (by omega : ¬ n = 0)]
  have h2e : (0:ℚ) < 2 ^ (flog2div1000 n - 52) := zpow_pos (by norm_num) _
  have key := abs_rhe_sub ((n : ℚ) / 1000 / 2 ^ (flog2div1000 n - 52))
  have expand : (rhe ((n : ℚ) / 1000 / 2 ^ (flog2div1000 n - 52)) : ℚ)
        * 2 ^ (flog2div1000 n - 52) - (n : ℚ) / 1000
      = ((rhe ((n : ℚ) / 1000 / 2 ^ (flog2div1000 n - 52)) : ℚ)
        - (n : ℚ) / 1000 / 2 ^ (flog2div1000 n - 52)) * 2 ^ (flog2div1000 n - 52) := by
    field_simp
    ring
  rw [expand, abs_mul, abs_of_pos h2e]
  calc |(rhe ((n : ℚ) / 1000 / 2 ^ (flog2div1000 n - 52)) : ℚ)
        - (n : ℚ) / 1000 / 2 ^ (flog2div1000 n - 52)| * 2 ^ (flog2div1000 n - 52)
      ≤ (1 / 2) * 2 ^ (flog2div1000 n - 52) := by
        exact mul_le_mul_of_nonneg_right key (le_of_lt h2e)
    _ = 2 ^ (flog2div1000 n - 53) := by
        rw [show flog2div1000 n - 53 = (flog2div1000 n - 52) + (-1 : ℤ) by ring,
          zpow_add₀ (by norm_num : (2:ℚ) ≠ 0)]
        norm_num
        ring

theorem flog2div1000_le (n : ℕ) (h : 1 ≤ n) (hlt : n < 2 ^ 53) :
    flog2div1000 n ≤ 43 := by
  have hb := (flog2div1000_bounds n h).1
  by_contra hcon
  push_neg at hcon
  have h44 : (44 : ℤ) ≤ flog2div1000 n := by omega
  have : (2:ℚ) ^ (44 : ℤ) ≤ 2 ^ (flog2div1000 n) := by
    exact zpow_le_zpow_right₀ (by norm_num) h44
  have hq : (n : ℚ) / 1000 < 2 ^ (44 : ℤ) := by
    have hn : (n : ℚ) < 2 ^ 53 := by exact_mod_cast hlt
    rw [div_lt_iff₀ (by norm_num : (0:ℚ) < 1000)]
    calc (n : ℚ) < 2 ^ 53 := hn
    _ ≤ 2 ^ (44 : ℤ) * 1000 := by norm_num [zpow_natCast]
  linarith

theorem pyFloatDiv1000_dvd (n : ℕ) (h : 1 ≤ n) (hdvd : 1000 ∣ n) (hlt : n < 2 ^ 53) :
    pyFloatDiv1000 n = (n : ℚ) / 1000 := by
  obtain ⟨c, hc⟩ := hdvd
  have he : flog2div1000 n - 52 ≤ -9 := by
    have := flog2div1000_le n h hlt
    omega
  obtain ⟨k, hk⟩ : ∃ k : ℕ, flog2div1000 n - 52 = -(k : ℤ) :=
    ⟨(-(flog2div1000 n - 52)).toNat, by omega⟩
  unfold pyFloatDiv1000
  rw [if_neg (by omega : ¬ n = 0), hk]
  have hq : (n : ℚ) / 1000 = (c : ℚ) := by
    subst hc
    push_cast
    field_simp
  rw [hq]
  rw [zpow_neg, zpow_natCast, div_eq_mul_inv, inv_inv]
  have hcast : (c : ℚ) * 2 ^ k = (((c * 2 ^ k : ℕ) : ℤ) : ℚ) := by push_cast; ring
  rw [hcast, rhe_intCast]
  push_cast
  field_simp

theorem pyFloatDiv1000_sandwich (n : ℕ) (h1 : 1 ≤ n) (hlt : n < 2 ^ 53)
    (hdvd : ¬ 1000 ∣ n) :
    ((n / 1000 : ℕ) : ℚ) < pyFloatDiv1000 n ∧
      pyFloatDiv1000 n < ((n / 1000 : ℕ) : ℚ) + 1 ∧
      ((n / 1000 : ℕ) : ℚ) < (n : ℚ) / 1000 ∧
      (n : ℚ) / 1000 < ((n / 1000 : ℕ) : ℚ) + 1 := by
  have herr := pyFloatDiv1000_err n h1
  have hE := flog2div1000_le n h1 hlt
  have hbound : |pyFloatDiv1000 n - (n : ℚ) / 1000| ≤ 1 / 1024 := by
    calc |pyFloatDiv1000 n - (n : ℚ) / 1000| ≤ 2 ^ (flog2div1000 n - 53) := herr
    _ ≤ 2 ^ (-10 : ℤ) := zpow_le_zpow_right₀ (by norm_num) (by omega)
    _ = 1 / 1024 := by
        rw [show (-10 : ℤ) = -(10 : ℕ) by norm_num, zpow_neg, zpow_natCast]
        norm_num
  obtain ⟨hb1, hb2⟩ := abs_le.mp hbound
  set t := n / 1000 with htdef
  set s := n % 1000 with hsdef
  have hmod : 1000 * t + s = n := Nat.div_add_mod n 1000
  have hs1 : 1 ≤ s := by
    rcases Nat.eq_zero_or_pos s with h | h
    · exact absurd (Nat.dvd_of_mod_eq_zero h) hdvd
    · exact h
  have hs2 : s ≤ 999 := by
    have : s < 1000 := Nat.mod_lt n (by norm_num)
    omega
  have hql : (t : ℚ) + 1 / 1000 ≤ (n : ℚ) / 1000 := by
    rw [le_div_iff₀ (by norm_num : (0:ℚ) < 1000)]
    have hnat : ((1000 * t + 1 : ℕ) : ℚ) ≤ (n : ℚ) := by
      exact_mod_cast (by omega : 1000 * t + 1 ≤ n)
    push_cast at hnat
    linarith
  have hqh : (n : ℚ) / 1000 ≤ (t : ℚ) + 999 / 1000 := by
    rw [div_le_iff₀ (by norm_num : (0:ℚ) < 1000)]
    have hnat : (n : ℚ) ≤ ((1000 * t + 999 : ℕ) : ℚ) := by
      exact_mod_cast (by omega : n ≤ 1000 * t + 999)
    push_cast at hnat
    linarith
  refine ⟨by linarith, by linarith, by linarith, by linarith⟩

theorem pyCeilSats_exact (n : ℕ) (hlt : n < 2 ^ 53) :
    ⌈pyFloatDiv1000 n⌉ = ⌈(n : ℚ) / 1000⌉ := by
  rcases Nat.eq_zero_or_pos n with h0 | h1
  · subst h0
    simp [pyFloatDiv1000]
  by_cases hdvd : 1000 ∣ n
  · rw [pyFloatDiv1000_dvd n h1 hdvd hlt]
  · obtain ⟨ha, hb, hc, hd⟩ := pyFloatDiv1000_sandwich n h1 hlt hdvd
    set t := n / 1000 with htdef
    have e1 : ⌈pyFloatDiv1000 n⌉ = (t : ℤ) + 1 := by
      rw [Int.ceil_eq_iff]
      refine ⟨?_, ?_⟩
      · push_cast
        linarith
      · push_cast
        linarith
    have e2 : ⌈(n : ℚ) / 1000⌉ = (t : ℤ) + 1 := by
      rw [Int.ceil_eq_iff]
      refine ⟨?_, ?_⟩
      · push_cast
        linarith
      · push_cast
        linarith
    rw [e1, e2]

theorem pyFloorSats_exact (n : ℕ) (hlt : n < 2 ^ 53) :
    ⌊pyFloatDiv1000 n⌋ = ⌊(n : ℚ) / 1000⌋ := by
  rcases Nat.eq_zero_or_pos n with h0 | h1
  · subst h0
    simp [pyFloatDiv1000]
  by_cases hdvd : 1000 ∣ n
  · rw [pyFloatDiv1000_dvd n h1 hdvd hlt]
  · obtain ⟨ha, hb, hc, hd⟩ := pyFloatDiv1000_sandwich n h1 hlt hdvd
    set t := n / 1000 with htdef
    have e1 : ⌊pyFloatDiv1000 n⌋ = (t : ℤ) := by
      rw [Int.floor_eq_iff]
      refine ⟨?_, ?_⟩
      · push_cast
        linarith
      · push_cast
        linarith
    have e2 : ⌊(n : ℚ) / 1000⌋ = (t : ℤ) := by
      rw [Int.floor_eq_iff]
      refine ⟨?_, ?_⟩
      · push_cast
        linarith
      · push_cast
        linarith
    rw [e1, e2]

theorem pyFloatDiv1000_at_1e17 : pyFloatDiv1000 100000000000000001 = 100000000000000 := by
  unfold pyFloatDiv1000
  rw [if_neg (by norm_num), show flog2div1000 100000000000000001 = 46 from by decide]
  norm_num
  rw [rhe]
  norm_num


/-- Counterexample to claim C5: `min_sats` does not follow exact integer
ceiling semantics for all millisatoshi values — the source computes
`int(math.ceil(self.min_sendable / 1000))` with Python float (binary64)
division, so for the successfully constructed pay response with
`minSendable = 10^17 + 1` the property returns `10^14` while the exact
ceiling of `(10^17 + 1) / 1000` is `10^14 + 1`. -/
theorem c5_counterexample :
    LnurlPayResponse.construct c5Dict = Except.ok c5Pay ∧
    c5Pay.min_sats = 100000000000000 ∧
    ⌈((100000000000000001 : ℕ) : ℚ) / 1000⌉ = 100000000000001 ∧
    c5Pay.min_sats ≠ ⌈((100000000000000001 : ℕ) : ℚ) / 1000⌉ := by
  have h2 : c5Pay.min_sats = 100000000000000 := by
    show pyCeilSats 100000000000000001 = 100000000000000
    rw [pyCeilSats, pyFloatDiv1000_at_1e17,
      show (100000000000000 : ℚ) = ((100000000000000 : ℤ) : ℚ) by norm_num,
      Int.ceil_intCast]
  have h3 : ⌈((100000000000000001 : ℕ) : ℚ) / 1000⌉ = 100000000000001 := by
    rw [Int.ceil_eq_iff]
    norm_num
  refine ⟨rfl, h2, h3, ?_⟩
  rw [h2, h3]
  decide

/-- Claim C5 (amended): `min_sats` is the exact integer ceiling and
`max_sats` the exact integer floor of the amount divided by 1000 for all
field values below `2^53` (where binary64 division cannot cross an integer);
the spec's examples `minSendable = 1500 -> 2` and `maxSendable = 2999 -> 2`
fall in that range.  Above `2^53` the float path diverges from the exact
value. -/
theorem c5_amended_sats :
    (∀ r : LnurlPayResponse, r.min_sendable < 2 ^ 53 →
      r.min_sats = ⌈(r.min_sendable : ℚ) / 1000⌉) ∧
    (∀ r : LnurlPayResponse, r.max_sendable < 2 ^ 53 →
      r.max_sats = ⌊(r.max_sendable : ℚ) / 1000⌋) ∧
    (∀ r : LnurlWithdrawResponse, r.min_withdrawable < 2 ^ 53 →
      r.min_sats = ⌈(r.min_withdrawable : ℚ) / 1000⌉) ∧
    (∀ r : LnurlWithdrawResponse, r.max_withdrawable < 2 ^ 53 →
      r.max_sats = ⌊(r.max_withdrawable : ℚ) / 1000⌋) :=
  ⟨fun _ h => pyCeilSats_exact _ h, fun _ h => pyFloorSats_exact _ h,
   fun _ h => pyCeilSats_exact _ h, fun _ h => pyFloorSats_exact _ h⟩

/-- Witness for the amended C5 at the spec's own examples: the pay response
with `minSendable = 1500` and `maxSendable = 2999` has `minSats = 2` and
`maxSats = 2`. -/
theorem c5_amended_witness : c5SpecPay.min_sats = 2 ∧ c5SpecPay.max_sats = 2 := by
  have h1 := c5_amended_sats.1 c5SpecPay (show (1500 : ℕ) < 2 ^ 53 by norm_num)
  have h2 := c5_amended_sats.2.1 c5SpecPay (show (2999 : ℕ) < 2 ^ 53 by norm_num)
  constructor
  · rw [h1, show c5SpecPay.min_sendable = 1500 from rfl, Int.ceil_eq_iff]
    norm_num
  · rw [h2, show c5SpecPay.max_sendable = 2999 from rfl, Int.floor_eq_iff]
    norm_num


/-! ## Claim C7: the decode error taxonomy -/

/-- Counterexample to claim C7: the decode path does not raise a checksum
error distinguishable from the invalid-prefix error.  `lnurl13myvsu` is the
valid encoding of the empty URL; flipping one character (`lnurl13mxvsu`)
corrupts the checksum, and decoding it raises the very same
`ValueError('Invalid Human Readable Prefix (HRP): ...')` that a disallowed
prefix raises — merely carrying `None` instead of a prefix, as the decode of
the valid bech32 string `a12uel5l` (prefix `a`) shows. -/
theorem c7_counterexample :
    lnurlDecode "lnurl13myvsu".toList = Except.ok [] ∧
    lnurlDecode "lnurl13mxvsu".toList = Except.error (CodecError.invalidHRP none) ∧
    lnurlDecode "a12uel5l".toList = Except.error (CodecError.invalidHRP (some ['a'])) := by
  refine ⟨by rfl, by rfl, by rfl⟩

/-- Helper: reduction of `_lnurl_decode` once the underlying `bech32_decode`
result is known. -/
theorem lnurlDecode_cases (s : List Char) (hrp : List Char) (data : List ℕ)
    (h : bech32_decode (stripLightning s) = some (hrp, data)) :
    lnurlDecode s = if hrp = "lnurl".toList
      then match convertbits data 5 8 false with
        | none => Except.error CodecError.typeError
        | some bytes => match utf8Decode bytes with
          | none => Except.error CodecError.invalidLnurl
          | some cps => Except.ok (cps.map Char.ofNat)
      else Except.error (CodecError.invalidHRP (some hrp)) := by
  unfold lnurlDecode pyBech32Decode
  rw [h]
  by_cases hc : hrp = "lnurl".toList
  · rw [if_pos hc]
    subst hc
    rfl
  · rw [if_neg hc]
    have hcont : (["lnurl".toList] : List (List Char)).contains hrp = false := by
      simp [List.contains]
      exact fun hh => hc (hh.trans rfl)
    simp only [hcont]
    rfl

/-- Helper: any `bech32_decode` failure (checksum, charset, case, length)
surfaces as the invalid-HRP `ValueError` carrying `None`. -/
theorem lnurlDecode_none (s : List Char)
    (h : bech32_decode (stripLightning s) = none) :
    lnurlDecode s = Except.error (CodecError.invalidHRP none) := by
  unfold lnurlDecode pyBech32Decode
  rw [h]

/-- Claim C7 (amended): the decode path raises two `ValueError` shapes and
one uncaught `TypeError`, not three distinguishable codec errors: any
bech32-level failure — including a corrupted checksum — raises the
invalid-prefix `ValueError` with `hrp = None`; a well-formed bech32 string
with a prefix other than `lnurl` raises the same `ValueError` carrying the
offending prefix; and an invalid UTF-8 payload raises the distinct
`ValueError('Invalid LNURL.')`. -/
theorem c7_amended_error_taxonomy :
    (∀ s, bech32_decode (stripLightning s) = none →
      lnurlDecode s = Except.error (CodecError.invalidHRP none)) ∧
    (∀ s hrp data, bech32_decode (stripLightning s) = some (hrp, data) →
      hrp ≠ "lnurl".toList →
      lnurlDecode s = Except.error (CodecError.invalidHRP (some hrp))) ∧
    (∀ s data bytes, bech32_decode (stripLightning s) = some ("lnurl".toList, data) →
      convertbits data 5 8 false = some bytes →
      utf8Decode bytes = none →
      lnurlDecode s = Except.error CodecError.invalidLnurl) := by
  refine ⟨lnurlDecode_none, ?_, ?_⟩
  · intro s hrp data h hne
    rw [lnurlDecode_cases s hrp data h, if_neg hne]
  · intro s data bytes h hcb hu
    rw [lnurlDecode_cases s "lnurl".toList data h, if_pos rfl, hcb]
    show (match utf8Decode bytes with
      | none => Except.error CodecError.invalidLnurl
      | some cps => Except.ok (cps.map Char.ofNat)) = Except.error CodecError.invalidLnurl
    rw [hu]

/-- Witness for the amended C7: a corrupted-checksum string, a `bc`-prefixed
string, and a valid `lnurl` string whose payload byte `0xFF` is not UTF-8. -/
theorem c7_amended_witness :
    lnurlDecode "lnurl13myvsq".toList = Except.error (CodecError.invalidHRP none) ∧
    lnurlDecode "bc1gmk9yu".toList = Except.error (CodecError.invalidHRP (some "bc".toList)) ∧
    lnurlDecode "lnurl1ludh0vcf".toList = Except.error CodecError.invalidLnurl :=
  ⟨c7_amended_error_taxonomy.1 _ rfl,
   c7_amended_error_taxonomy.2.1 _ "bc".toList [] rfl (by decide),
   c7_amended_error_taxonomy.2.2 _ [31, 28] [255] rfl rfl rfl⟩

/-! ## C1: the bech32 codec round-trip -/

theorem and_mask_eq_mod (x n : ℕ) : x &&& (2 ^ n - 1) = x % 2 ^ n := by
  apply Nat.eq_of_testBit_eq
  intro i
  rw [Nat.testBit_and, Nat.testBit_two_pow_sub_one, Nat.testBit_mod_two_pow]
  rw [Bool.and_comm]

theorem natBits_length (w v : ℕ) : (natBits w v).length = w := by
  induction w generalizing v with
  | zero => rfl
  | succ w ih => simp [natBits, ih]

theorem natBits_add (a b v : ℕ) : natBits (a + b) v = natBits a (v >>> b) ++ natBits b v := by
  induction a with
  | zero => simp [natBits]
  | succ a ih =>
      have h1 : a + 1 + b = (a + b) + 1 := by omega
      rw [h1]
      show Nat.testBit v (a + b) :: natBits (a + b) v = _
      rw [ih]
      show _ = Nat.testBit (v >>> b) a :: (natBits a (v >>> b) ++ natBits b v)
      rw [Nat.testBit_shiftRight, Nat.add_comm b a]

theorem natBits_congr (w : ℕ) {a b : ℕ} (h : ∀ i, i < w → a.testBit i = b.testBit i) :
    natBits w a = natBits w b := by
  induction w with
  | zero => rfl
  | succ w ih =>
      show a.testBit w :: natBits w a = b.testBit w :: natBits w b
      rw [h w (Nat.lt_succ_self w), ih (fun i hi => h i (by omega))]

theorem natBits_mask (w m v : ℕ) (h : w ≤ m) :
    natBits w (v &&& (2 ^ m - 1)) = natBits w v := by
  apply natBits_congr
  intro i hi
  rw [Nat.testBit_and, Nat.testBit_two_pow_sub_one, decide_eq_true (by omega : i < m),
    Bool.and_true]

theorem natBits_zero_val (w : ℕ) : natBits w 0 = List.replicate w false := by
  induction w with
  | zero => rfl
  | succ w ih =>
      show Nat.testBit 0 w :: natBits w 0 = _
      rw [Nat.zero_testBit, ih]
      rfl

theorem bitsVal_aux (bs : List Bool) (a : ℕ) :
    bs.foldl (fun a b => 2 * a + cond b 1 0) a = a * 2 ^ bs.length + bitsVal bs := by
  induction bs generalizing a with
  | nil => simp [bitsVal]
  | cons b bs ih =>
      show bs.foldl _ (2 * a + cond b 1 0) = _
      rw [ih]
      have hb : bitsVal (b :: bs) = (cond b 1 0) * 2 ^ bs.length + bitsVal bs := by
        show bs.foldl _ (2 * 0 + cond b 1 0) = _
        rw [ih]
        ring_nf
      rw [hb]
      simp [List.length_cons]
      ring

theorem bitsVal_cons (b : Bool) (bs : List Bool) :
    bitsVal (b :: bs) = (cond b 1 0) * 2 ^ bs.length + bitsVal bs := by
  show bs.foldl _ (2 * 0 + cond b 1 0) = _
  rw [bitsVal_aux]
  ring_nf

theorem bitsVal_append (xs ys : List Bool) :
    bitsVal (xs ++ ys) = bitsVal xs * 2 ^ ys.length + bitsVal ys := by
  show (xs ++ ys).foldl _ 0 = _
  rw [List.foldl_append]
  show ys.foldl _ (bitsVal xs) = _
  rw [bitsVal_aux]

theorem bitsVal_natBits (w v : ℕ) : bitsVal (natBits w v) = v % 2 ^ w := by
  induction w with
  | zero => simp [natBits, bitsVal, Nat.mod_one]
  | succ w ih =>
      show bitsVal (v.testBit w :: natBits w v) = _
      rw [bitsVal_cons, natBits_length, ih]
      have hb : (cond (v.testBit w) 1 0) = v / 2 ^ w % 2 := by
        rw [Nat.testBit_to_div_mod]
        rcases Nat.mod_two_eq_zero_or_one (v / 2 ^ w) with h | h <;> simp [h]
      rw [hb]
      have key : v % 2 ^ (w + 1) = 2 ^ w * (v / 2 ^ w % 2) + v % 2 ^ w := by
        have h1 : v % 2 ^ (w + 1) % 2 ^ w = v % 2 ^ w :=
          Nat.mod_mod_of_dvd v ⟨2, by ring⟩
        have h2 : v % 2 ^ (w + 1) / 2 ^ w = v / 2 ^ w % 2 := by
          rw [show (2 : ℕ) ^ (w + 1) = 2 ^ w * 2 by ring]
          exact Nat.mod_mul_right_div_self v (2 ^ w) 2
        have h3 := Nat.div_add_mod (v % 2 ^ (w + 1)) (2 ^ w)
        rw [h1, h2] at h3
        omega
      rw [key]
      ring

theorem bitsVal_replicate_false (w : ℕ) : bitsVal (List.replicate w false) = 0 := by
  rw [← natBits_zero_val, bitsVal_natBits, Nat.zero_mod]

theorem natBits_inj {w a b : ℕ} (ha : a < 2 ^ w) (hb : b < 2 ^ w)
    (h : natBits w a = natBits w b) : a = b := by
  have := congrArg bitsVal h
  rw [bitsVal_natBits, bitsVal_natBits, Nat.mod_eq_of_lt ha, Nat.mod_eq_of_lt hb] at this
  exact this

theorem bitsOfList_cons (w : ℕ) (x : ℕ) (xs : List ℕ) :
    bitsOfList w (x :: xs) = natBits w x ++ bitsOfList w xs := by
  simp [bitsOfList]

theorem bitsOfList_nil (w : ℕ) : bitsOfList w [] = [] := rfl

theorem bitsOfList_append (w : ℕ) (xs ys : List ℕ) :
    bitsOfList w (xs ++ ys) = bitsOfList w xs ++ bitsOfList w ys := by
  simp [bitsOfList]

theorem bitsOfList_length (w : ℕ) (xs : List ℕ) :
    (bitsOfList w xs).length = w * xs.length := by
  induction xs with
  | nil => simp [bitsOfList]
  | cons x xs ih =>
      rw [bitsOfList_cons]
      simp [natBits_length, ih]
      ring

theorem bitsOfList_inj (w : ℕ) {xs ys : List ℕ}
    (hx : ∀ e ∈ xs, e < 2 ^ w) (hy : ∀ e ∈ ys, e < 2 ^ w)
    (hlen : xs.length = ys.length)
    (h : bitsOfList w xs = bitsOfList w ys) : xs = ys := by
  induction xs generalizing ys with
  | nil =>
      cases ys with
      | nil => rfl
      | cons y ys => simp at hlen
  | cons x xs ih =>
      cases ys with
      | nil => simp at hlen
      | cons y ys =>
          rw [bitsOfList_cons, bitsOfList_cons] at h
          have hinj := List.append_inj h (by rw [natBits_length, natBits_length])
          have hhead : x = y :=
            natBits_inj (hx x (by simp)) (hy y (by simp)) hinj.1
          have htail : xs = ys :=
            ih (fun e he => hx e (by simp [he])) (fun e he => hy e (by simp [he]))
              (by simpa using hlen) hinj.2
          rw [hhead, htail]

theorem cbEmitFuel_spec (tobits maxv acc : ℕ) (ht : 0 < tobits)
    (hm : maxv = 2 ^ tobits - 1) :
    ∀ fuel bits ret, bits ≤ fuel →
    ∃ emit, cbEmitFuel tobits maxv acc fuel bits ret = (bits % tobits, ret ++ emit) ∧
      (∀ e ∈ emit, e < 2 ^ tobits) ∧
      bitsOfList tobits emit ++ natBits (bits % tobits) acc = natBits bits acc := by
  intro fuel
  induction fuel with
  | zero =>
      intro bits ret hb
      have : bits = 0 := by omega
      subst this
      exact ⟨[], by simp [cbEmitFuel, Nat.zero_mod], by simp,
        by simp [bitsOfList_nil, Nat.zero_mod]⟩
  | succ fuel ih =>
      intro bits ret hb
      by_cases hge : tobits ≤ bits
      · have hrec := ih (bits - tobits) (ret ++ [(acc >>> (bits - tobits)) &&& maxv])
          (by omega)
        obtain ⟨emit2, heq, hlt2, hbits2⟩ := hrec
        have hmod : (bits - tobits) % tobits = bits % tobits :=
          (Nat.mod_eq_sub_mod hge).symm
        refine ⟨((acc >>> (bits - tobits)) &&& maxv) :: emit2, ?_, ?_, ?_⟩
        · show cbEmitFuel tobits maxv acc (fuel + 1) bits ret = _
          unfold cbEmitFuel
          rw [if_pos hge, heq, hmod]
          simp
        · intro e he
          rcases List.mem_cons.mp he with h | h
          · subst h
            calc (acc >>> (bits - tobits)) &&& maxv ≤ maxv := Nat.and_le_right
            _ < 2 ^ tobits := by
                subst hm
                have : 0 < 2 ^ tobits := Nat.pos_pow_of_pos tobits (by omega)
                omega
          · exact hlt2 e h
        · rw [bitsOfList_cons, List.append_assoc]
          rw [hmod] at hbits2
          rw [hbits2]
          have hdecomp : natBits bits acc
              = natBits tobits (acc >>> (bits - tobits)) ++ natBits (bits - tobits) acc := by
            have h := natBits_add tobits (bits - tobits) acc
            rw [show tobits + (bits - tobits) = bits by omega] at h
            exact h
          rw [hdecomp, hm, natBits_mask tobits tobits _ le_rfl]
      · push_neg at hge
        refine ⟨[], ?_, by simp, by simp [bitsOfList_nil, Nat.mod_eq_of_lt hge]⟩
        show cbEmitFuel tobits maxv acc (fuel + 1) bits ret = _
        unfold cbEmitFuel
        rw [if_neg (by omega)]
        simp [Nat.mod_eq_of_lt hge]

theorem natBits_push (acc v frombits bits W : ℕ) (hv : v < 2 ^ frombits)
    (hW : bits + frombits ≤ W) :
    natBits (bits + frombits) (((acc <<< frombits) ||| v) &&& (2 ^ W - 1))
      = natBits bits acc ++ natBits frombits v := by
  rw [natBits_mask _ _ _ hW]
  rw [show bits + frombits = bits + frombits from rfl]
  rw [natBits_add bits frombits]
  congr 1
  · apply natBits_congr
    intro i hi
    rw [Nat.testBit_shiftRight, Nat.testBit_or, Nat.testBit_shiftLeft]
    rw [decide_eq_true (by omega : frombits + i ≥ frombits)]
    rw [show frombits + i - frombits = i by omega]
    rw [Nat.testBit_lt_two_pow (lt_of_lt_of_le hv (Nat.pow_le_pow_right (by omega) (by omega)))]
    simp
  · apply natBits_congr
    intro i hi
    rw [Nat.testBit_or, Nat.testBit_shiftLeft]
    rw [decide_eq_false (by omega : ¬ (i ≥ frombits))]
    simp

theorem convertbitsLoop_spec (frombits tobits : ℕ) (hf : 0 < frombits) (ht : 0 < tobits) :
    ∀ (data : List ℕ) (acc bits : ℕ) (ret : List ℕ),
    bits < tobits → (∀ x ∈ data, x < 2 ^ frombits) →
    ∃ acc' bits' ret',
      convertbitsLoop frombits tobits (2 ^ tobits - 1) (2 ^ (frombits + tobits - 1) - 1)
        data acc bits ret = some (acc', bits', ret') ∧
      bits' < tobits ∧
      ∃ emit, ret' = ret ++ emit ∧ (∀ e ∈ emit, e < 2 ^ tobits) ∧
        bitsOfList tobits emit ++ natBits bits' acc'
          = natBits bits acc ++ bitsOfList frombits data := by
  intro data
  induction data with
  | nil =>
      intro acc bits ret hb _
      exact ⟨acc, bits, ret, rfl, hb, [], by simp,
        by simp, by simp [bitsOfList_nil]⟩
  | cons v rest ih =>
      intro acc bits ret hb hd
      have hv : v < 2 ^ frombits := hd v (by simp)
      have hcb := cbEmitFuel_spec tobits (2 ^ tobits - 1)
        (((acc <<< frombits) ||| v) &&& (2 ^ (frombits + tobits - 1) - 1)) ht rfl
        (bits + frombits) (bits + frombits) ret le_rfl
      obtain ⟨emit1, hemit1, hlt1, hbits1⟩ := hcb
      have hmodlt : (bits + frombits) % tobits < tobits := Nat.mod_lt _ ht
      have hrec := ih (((acc <<< frombits) ||| v) &&& (2 ^ (frombits + tobits - 1) - 1))
        ((bits + frombits) % tobits) (ret ++ emit1) hmodlt
        (fun x hx => hd x (by simp [hx]))
      obtain ⟨acc', bits', ret', hloop, hb', emit2, hret', hlt2, hbits2⟩ := hrec
      refine ⟨acc', bits', ret', ?_, hb', emit1 ++ emit2, ?_, ?_, ?_⟩
      · show convertbitsLoop _ _ _ _ (v :: rest) acc bits ret = _
        unfold convertbitsLoop
        rw [if_neg (by omega : ¬ 2 ^ frombits ≤ v)]
        show (match cbEmit tobits (2 ^ tobits - 1) _ (bits + frombits) ret with
          | (bits', ret') => convertbitsLoop _ _ _ _ rest _ bits' ret') = _
        rw [show cbEmit tobits (2 ^ tobits - 1)
            (((acc <<< frombits) ||| v) &&& (2 ^ (frombits + tobits - 1) - 1))
            (bits + frombits) ret = ((bits + frombits) % tobits, ret ++ emit1) from hemit1]
        exact hloop
      · rw [hret', List.append_assoc]
      · intro e he
        rcases List.mem_append.mp he with h | h
        · exact hlt1 e h
        · exact hlt2 e h
      · have hpush : natBits (bits + frombits)
            (((acc <<< frombits) ||| v) &&& (2 ^ (frombits + tobits - 1) - 1))
            = natBits bits acc ++ natBits frombits v :=
          natBits_push acc v frombits bits (frombits + tobits - 1) hv (by omega)
        rw [bitsOfList_append, List.append_assoc, hbits2, bitsOfList_cons]
        rw [← List.append_assoc, hbits1, hpush, List.append_assoc]

theorem natBits_padded (acc b t : ℕ) (hb : b ≤ t) :
    natBits t ((acc <<< (t - b)) &&& (2 ^ t - 1))
      = natBits b acc ++ List.replicate (t - b) false := by
  rw [natBits_mask _ _ _ le_rfl]
  have h := natBits_add b (t - b) (acc <<< (t - b))
  rw [show b + (t - b) = t by omega] at h
  rw [h]
  congr 1
  · apply natBits_congr
    intro i hi
    rw [Nat.testBit_shiftRight, Nat.testBit_shiftLeft]
    rw [decide_eq_true (by omega : t - b + i ≥ t - b)]
    rw [show t - b + i - (t - b) = i by omega]
    rw [Bool.true_and]
  · rw [← natBits_zero_val]
    apply natBits_congr
    intro i hi
    rw [Nat.testBit_shiftLeft, Nat.zero_testBit]
    rw [decide_eq_false (by omega : ¬ (i ≥ t - b))]
    simp

theorem convertbits_8_5_pad (bs : List ℕ) (hb : ∀ b ∈ bs, b < 256) :
    ∃ out, convertbits bs 8 5 true = some out ∧ (∀ e ∈ out, e < 32) ∧
      ∃ z, z < 5 ∧ bitsOfList 5 out = bitsOfList 8 bs ++ List.replicate z false := by
  have hspec := convertbitsLoop_spec 8 5 (by omega) (by omega) bs 0 0 [] (by omega)
    (fun x hx => hb x hx)
  obtain ⟨acc', bits', ret', hloop, hb', emit, hret, hlt, hbits⟩ := hspec
  rw [List.nil_append] at hret
  subst hret
  rw [show natBits 0 0 = [] from rfl, List.nil_append] at hbits
  unfold convertbits
  rw [show (1 <<< 5) - 1 = 2 ^ 5 - 1 by rfl, show (1 <<< (8 + 5 - 1)) - 1 = 2 ^ (8 + 5 - 1) - 1 by rfl]
  simp only [hloop]
  rw [if_pos trivial]
  by_cases hz : bits' = 0
  · subst hz
    refine ⟨ret', by simp, fun e he => hlt e he, 0, by omega, ?_⟩
    rw [show natBits 0 acc' = [] from rfl, List.append_nil] at hbits
    simpa using hbits
  · refine ⟨ret' ++ [(acc' <<< (5 - bits')) &&& (2 ^ 5 - 1)], by simp [hz], ?_, 5 - bits', by omega, ?_⟩
    · intro e he
      rcases List.mem_append.mp he with h | h
      · exact hlt e h
      · rcases List.mem_singleton.mp h with rfl
        calc (acc' <<< (5 - bits')) &&& (2 ^ 5 - 1) ≤ 2 ^ 5 - 1 := Nat.and_le_right
        _ < 32 := by omega
    · rw [bitsOfList_append, bitsOfList_cons, bitsOfList_nil, List.append_nil]
      rw [natBits_padded acc' bits' 5 (by omega)]
      rw [← List.append_assoc, hbits]

theorem convertbits_5_8_unpad (out bs : List ℕ) (hout : ∀ e ∈ out, e < 32)
    (hbs : ∀ b ∈ bs, b < 256) (z : ℕ) (hz : z < 5)
    (heq : bitsOfList 5 out = bitsOfList 8 bs ++ List.replicate z false) :
    convertbits out 5 8 false = some bs := by
  have hspec := convertbitsLoop_spec 5 8 (by omega) (by omega) out 0 0 [] (by omega)
    (fun x hx => hout x hx)
  obtain ⟨acc', bits', ret', hloop, hb', emit, hret, hlt, hbits⟩ := hspec
  rw [List.nil_append] at hret
  subst hret
  rw [show natBits 0 0 = [] from rfl, List.nil_append] at hbits
  rw [heq] at hbits
  have hlen : 8 * ret'.length + bits' = 8 * bs.length + z := by
    have h1 := congrArg List.length hbits
    simp only [List.length_append, bitsOfList_length, natBits_length,
      List.length_replicate] at h1
    omega
  have hbz : bits' = z ∧ ret'.length = bs.length := by omega
  obtain ⟨hbz1, hbz2⟩ := hbz
  have hinj := List.append_inj hbits (by
    rw [bitsOfList_length, bitsOfList_length]
    omega)
  have hretbs : ret' = bs := bitsOfList_inj 8 hlt hbs hbz2 hinj.1
  have hpadzero : natBits bits' acc' = List.replicate z false := by
    rw [hbz1] at hinj ⊢
    exact hinj.2
  unfold convertbits
  rw [show (1 <<< 8) - 1 = 2 ^ 8 - 1 by rfl, show (1 <<< (5 + 8 - 1)) - 1 = 2 ^ (5 + 8 - 1) - 1 by rfl]
  simp only [hloop]
  rw [if_neg (show ¬ (false = true) by decide)]
  have hX : (acc' <<< (8 - bits')) &&& (2 ^ 8 - 1) = 0 := by
    have h1 : natBits 8 ((acc' <<< (8 - bits')) &&& (2 ^ 8 - 1))
        = natBits bits' acc' ++ List.replicate (8 - bits') false := by
      exact natBits_padded acc' bits' 8 (by omega)
    have h2 : natBits 8 ((acc' <<< (8 - bits')) &&& (2 ^ 8 - 1))
        = List.replicate 8 false := by
      rw [h1, hpadzero, hbz1]
      rw [← List.replicate_add]
      congr 1
      omega
    have h3 := congrArg bitsVal h2
    rw [bitsVal_natBits, bitsVal_replicate_false] at h3
    have h4 : (acc' <<< (8 - bits')) &&& (2 ^ 8 - 1) < 2 ^ 8 := by
      calc (acc' <<< (8 - bits')) &&& (2 ^ 8 - 1) ≤ 2 ^ 8 - 1 := Nat.and_le_right
      _ < 2 ^ 8 := by omega
    rw [Nat.mod_eq_of_lt h4] at h3
    exact h3
  rw [if_neg ?_]
  · rw [hretbs]
  · push_neg
    constructor
    · omega
    · rw [hX]

theorem xor_left_comm_nat (a b c : ℕ) : a ^^^ (b ^^^ c) = b ^^^ (a ^^^ c) := by
  rw [← Nat.xor_assoc, Nat.xor_comm a b, Nat.xor_assoc]

theorem xor_shiftLeft (a b n : ℕ) : (a ^^^ b) <<< n = (a <<< n) ^^^ (b <<< n) := by
  apply Nat.eq_of_testBit_eq
  intro i
  rw [Nat.testBit_xor, Nat.testBit_shiftLeft, Nat.testBit_shiftLeft, Nat.testBit_shiftLeft,
    Nat.testBit_xor]
  cases hd : decide (i ≥ n) <;> simp

theorem polymodStep_eq (c v : ℕ) : polymodStep c v = polymodStep c 0 ^^^ v := by
  simp only [polymodStep]
  split_ifs <;>
    simp [Nat.xor_assoc, Nat.xor_comm, xor_left_comm_nat, Nat.xor_zero, Nat.zero_xor]

theorem polymodStep_zero_lt (c : ℕ) : polymodStep c 0 < 2 ^ 30 := by
  have hbase : (c &&& 0x1ffffff) <<< 5 < 2 ^ 30 := by
    rw [Nat.shiftLeft_eq]
    have h1 : c &&& 0x1ffffff ≤ 0x1ffffff := Nat.and_le_right
    calc (c &&& 0x1ffffff) * 2 ^ 5 ≤ 0x1ffffff * 2 ^ 5 := by
          exact Nat.mul_le_mul_right _ h1
    _ < 2 ^ 30 := by norm_num
  simp only [polymodStep]
  split_ifs <;> (repeat apply Nat.xor_lt_two_pow) <;> first | exact hbase | decide

theorem polymodStep_xor_low (c w : ℕ) (hw : w < 2 ^ 25) :
    polymodStep (c ^^^ w) 0 = polymodStep c 0 ^^^ (w <<< 5) := by
  have htop : (c ^^^ w) >>> 25 = c >>> 25 := by
    apply Nat.eq_of_testBit_eq
    intro i
    rw [Nat.testBit_shiftRight, Nat.testBit_shiftRight, Nat.testBit_xor]
    rw [Nat.testBit_lt_two_pow (lt_of_lt_of_le hw (Nat.pow_le_pow_right (by omega) (by omega)))]
    simp
  have hmask : (c ^^^ w) &&& 0x1ffffff = (c &&& 0x1ffffff) ^^^ w := by
    rw [Nat.and_xor_distrib_right]
    congr 1
    rw [show (0x1ffffff : ℕ) = 2 ^ 25 - 1 by norm_num, and_mask_eq_mod,
      Nat.mod_eq_of_lt hw]
  have hshift : ((c &&& 0x1ffffff) ^^^ w) <<< 5 = ((c &&& 0x1ffffff) <<< 5) ^^^ (w <<< 5) :=
    xor_shiftLeft _ _ _
  simp only [polymodStep]
  rw [htop, hmask, hshift]
  split_ifs <;>
    simp [Nat.xor_assoc, Nat.xor_comm, xor_left_comm_nat, Nat.xor_zero, Nat.zero_xor]

theorem xor_shift_add (x y : ℕ) (hy : y < 32) : (x <<< 5) ^^^ y = 32 * x + y := by
  apply Nat.eq_of_testBit_eq
  intro i
  by_cases h5 : i < 5
  · rw [Nat.testBit_xor, Nat.testBit_shiftLeft, decide_eq_false (by omega : ¬ (i ≥ 5))]
    have hmod : (32 * x + y).testBit i = ((32 * x + y) % 2 ^ 5).testBit i := by
      rw [Nat.testBit_mod_two_pow, decide_eq_true h5, Bool.true_and]
    rw [hmod, show (32 * x + y) % 2 ^ 5 = y from by
      rw [show (2 : ℕ) ^ 5 = 32 from by norm_num,
        show 32 * x + y = y + x * 32 by ring, Nat.add_mul_mod_self_right,
        Nat.mod_eq_of_lt hy]]
    simp
  · push_neg at h5
    rw [Nat.testBit_xor, Nat.testBit_shiftLeft, decide_eq_true (by omega : i ≥ 5)]
    have hyi : y < 2 ^ i :=
      lt_of_lt_of_le (show y < 2 ^ 5 by omega) (Nat.pow_le_pow_right (by omega) h5)
    rw [Nat.testBit_lt_two_pow hyi]
    have hsr : (32 * x + y).testBit i = ((32 * x + y) >>> 5).testBit (i - 5) := by
      rw [Nat.testBit_shiftRight, show 5 + (i - 5) = i by omega]
    rw [hsr, show (32 * x + y) >>> 5 = x from by
      rw [Nat.shiftRight_eq_div_pow, show (2 : ℕ) ^ 5 = 32 from by norm_num,
        Nat.mul_add_div (by omega), Nat.div_eq_of_lt hy, Nat.add_zero]]
    simp

theorem shiftRight_reassemble (p k : ℕ) :
    32 * (p >>> (k + 5)) + ((p >>> k) &&& 31) = p >>> k := by
  rw [show (31 : ℕ) = 2 ^ 5 - 1 by norm_num, and_mask_eq_mod]
  rw [Nat.shiftRight_eq_div_pow, Nat.shiftRight_eq_div_pow]
  rw [show (2 : ℕ) ^ (k + 5) = 2 ^ k * 2 ^ 5 by ring, ← Nat.div_div_eq_div_mul]
  rw [show (2 : ℕ) ^ 5 = 32 from by norm_num]
  have := Nat.div_add_mod (p / 2 ^ k) 32
  omega

theorem shiftRight_lt (p m n : ℕ) (hp : p < 2 ^ (m + n)) : p >>> m < 2 ^ n := by
  rw [Nat.shiftRight_eq_div_pow]
  apply Nat.div_lt_of_lt_mul
  calc p < 2 ^ (m + n) := hp
  _ = 2 ^ m * 2 ^ n := by ring


theorem step_combine (a r w : ℕ) (hr : r < 2 ^ 25) (hw : w < 32) :
    polymodStep (a ^^^ r) w = polymodStep a 0 ^^^ (32 * r + w) := by
  rw [polymodStep_eq, polymodStep_xor_low a r hr, Nat.xor_assoc, xor_shift_add r w hw]

theorem polymod_checksum_core (c0 s p : ℕ)
    (hs : List.foldl polymodStep c0 [0, 0, 0, 0, 0, 0] = s) (hp : p = s ^^^ 1) :
    List.foldl polymodStep c0
      [(p >>> 25) &&& 31, (p >>> 20) &&& 31, (p >>> 15) &&& 31,
       (p >>> 10) &&& 31, (p >>> 5) &&& 31, p &&& 31] = 1 := by
  have hs30 : s < 2 ^ 30 := by
    rw [← hs, show List.foldl polymodStep c0 [0, 0, 0, 0, 0, 0]
        = polymodStep (List.foldl polymodStep c0 [0, 0, 0, 0, 0]) 0 from rfl]
    exact polymodStep_zero_lt _
  have hp30 : p < 2 ^ 30 := by
    rw [hp]; exact Nat.xor_lt_two_pow hs30 (by norm_num)
  have h25 : ∀ m, 5 ≤ m → p >>> m < 2 ^ 25 := fun m hm =>
    shiftRight_lt p m 25 (lt_of_lt_of_le hp30 (Nat.pow_le_pow_right (by norm_num) (by omega)))
  have h5lt : p >>> 25 < 2 ^ 5 := shiftRight_lt p 25 5 hp30
  have hw5 : (p >>> 25) &&& 31 = p >>> 25 := by
    rw [show (31 : ℕ) = 2 ^ 5 - 1 from rfl, and_mask_eq_mod, Nat.mod_eq_of_lt h5lt]
  have hwlt : ∀ m, ((p >>> m) &&& 31) < 32 := fun m =>
    lt_of_le_of_lt Nat.and_le_right (by norm_num)
  have hwlt0 : p &&& 31 < 32 := lt_of_le_of_lt Nat.and_le_right (by norm_num)
  have hr20 : 32 * (p >>> 25) + ((p >>> 20) &&& 31) = p >>> 20 := by
    have h := shiftRight_reassemble p 20
    norm_num at h; exact h
  have hr15 : 32 * (p >>> 20) + ((p >>> 15) &&& 31) = p >>> 15 := by
    have h := shiftRight_reassemble p 15
    norm_num at h; exact h
  have hr10 : 32 * (p >>> 15) + ((p >>> 10) &&& 31) = p >>> 10 := by
    have h := shiftRight_reassemble p 10
    norm_num at h; exact h
  have hr5 : 32 * (p >>> 10) + ((p >>> 5) &&& 31) = p >>> 5 := by
    have h := shiftRight_reassemble p 5
    norm_num at h; exact h
  have hr0 : 32 * (p >>> 5) + (p &&& 31) = p := by
    have h := shiftRight_reassemble p 0
    simpa using h
  simp only [List.foldl]
  rw [polymodStep_eq c0 ((p >>> 25) &&& 31), hw5]
  rw [step_combine _ _ _ (h25 25 (by norm_num)) (hwlt 20), hr20]
  rw [step_combine _ _ _ (h25 20 (by norm_num)) (hwlt 15), hr15]
  rw [step_combine _ _ _ (h25 15 (by norm_num)) (hwlt 10), hr10]
  rw [step_combine _ _ _ (h25 10 (by norm_num)) (hwlt 5), hr5]
  rw [step_combine _ _ _ (h25 5 (by norm_num)) hwlt0, hr0]
  rw [show polymodStep (polymodStep (polymodStep (polymodStep (polymodStep
      (polymodStep c0 0) 0) 0) 0) 0) 0 = s from hs]
  rw [hp, ← Nat.xor_assoc, Nat.xor_self, Nat.zero_xor]

theorem bech32_verify_create (hrp : List Char) (data : List ℕ) :
    bech32_verify_checksum hrp (data ++ bech32_create_checksum hrp data) = true := by
  simp only [bech32_verify_checksum, bech32_create_checksum, bech32_polymod]
  rw [beq_iff_eq, ← List.append_assoc]
  rw [List.foldl_append]
  rw [show List.range 6 = [0, 1, 2, 3, 4, 5] from rfl]
  simp only [List.map]
  norm_num
  exact polymod_checksum_core _ _ _ rfl rfl

theorem charsetGetD_facts : ∀ d, d < 32 →
    CHARSET.getD d ' ' ∈ CHARSET ∧ charsetFind (CHARSET.getD d ' ') = d ∧
      CHARSET.contains (CHARSET.getD d ' ') = true := by decide

theorem charset_class : ∀ c ∈ CHARSET,
    (33 ≤ c.toNat ∧ c.toNat ≤ 126) ∧ asciiLowerChar (asciiUpperChar c) = c ∧
    asciiUpperChar (asciiUpperChar c) = asciiUpperChar c ∧
    (33 ≤ (asciiUpperChar c).toNat ∧ (asciiUpperChar c).toNat ≤ 126) ∧ c ≠ '1' := by
  decide

theorem hrp1_class : ∀ c ∈ ("lnurl".toList ++ ['1']),
    (33 ≤ c.toNat ∧ c.toNat ≤ 126) ∧ asciiLowerChar (asciiUpperChar c) = c ∧
    asciiUpperChar (asciiUpperChar c) = asciiUpperChar c ∧
    (33 ≤ (asciiUpperChar c).toNat ∧ (asciiUpperChar c).toNat ≤ 126) := by decide

theorem pyRfind_eq_none (l : List Char) (c : Char) (h : ∀ x ∈ l, x ≠ c) :
    pyRfind l c = none := by
  induction l with
  | nil => rfl
  | cons x xs ih =>
      have hx : x ≠ c := h x (List.mem_cons_self x xs)
      have hxs : pyRfind xs c = none := ih (fun y hy => h y (List.mem_cons_of_mem x hy))
      simp [pyRfind, hxs, hx]

theorem pyRfind_append_none (l₁ l₂ : List Char) (c : Char) (h : pyRfind l₂ c = none) :
    pyRfind (l₁ ++ l₂) c = pyRfind l₁ c := by
  induction l₁ with
  | nil => rw [List.nil_append, h]; rfl
  | cons x xs ih =>
      simp only [List.cons_append, pyRfind]
      rw [show pyRfind (xs.append l₂) c = pyRfind xs c from ih]

theorem bech32_decode_lnurl (vals : List ℕ) (hv : ∀ e ∈ vals, e < 32)
    (hck : bech32_verify_checksum "lnurl".toList vals = true)
    (hlen : vals.length + 6 ≤ 90) (hlen7 : 6 ≤ vals.length) :
    bech32_decode (pyUpperL (("lnurl".toList ++ ['1'])
        ++ vals.map (fun d => CHARSET.getD d ' ')))
      = some ("lnurl".toList, vals.take (vals.length - 6)) := by
  have hclass : ∀ c ∈ ("lnurl".toList ++ ['1']) ++ vals.map (fun d => CHARSET.getD d ' '),
      (33 ≤ c.toNat ∧ c.toNat ≤ 126) ∧ asciiLowerChar (asciiUpperChar c) = c ∧
      asciiUpperChar (asciiUpperChar c) = asciiUpperChar c ∧
      (33 ≤ (asciiUpperChar c).toNat ∧ (asciiUpperChar c).toNat ≤ 126) := by
    intro c hc
    rcases List.mem_append.1 hc with h | h
    · exact hrp1_class c h
    · obtain ⟨d, hd, rfl⟩ := List.mem_map.1 h
      have hcm := (charsetGetD_facts d (hv d hd)).1
      exact ⟨(charset_class _ hcm).1, (charset_class _ hcm).2.1,
        (charset_class _ hcm).2.2.1, (charset_class _ hcm).2.2.2.1⟩
  set E := ("lnurl".toList ++ ['1']) ++ vals.map (fun d => CHARSET.getD d ' ') with hE
  have hlow : pyLowerL (pyUpperL E) = E := by
    show (E.map asciiUpperChar).map asciiLowerChar = E
    rw [List.map_map]
    calc E.map (asciiLowerChar ∘ asciiUpperChar)
        = E.map id := List.map_congr_left (fun c hc => (hclass c hc).2.1)
    _ = E := List.map_id E
  have hupup : pyUpperL (pyUpperL E) = pyUpperL E := by
    show (E.map asciiUpperChar).map asciiUpperChar = E.map asciiUpperChar
    rw [List.map_map]
    exact List.map_congr_left (fun c hc => (hclass c hc).2.2.1)
  have hprint : ∀ c ∈ pyUpperL E, ¬(c.toNat < 33 ∨ 126 < c.toNat) := by
    intro c hc
    obtain ⟨c0, hc0, rfl⟩ := List.mem_map.1 hc
    have h := (hclass c0 hc0).2.2.2
    omega
  have hfind : pyRfind E '1' = some 5 := by
    rw [hE, pyRfind_append_none]
    · rfl
    · apply pyRfind_eq_none
      intro x hx
      obtain ⟨d, hd, rfl⟩ := List.mem_map.1 hx
      exact (charset_class _ (charsetGetD_facts d (hv d hd)).1).2.2.2.2
  have hElen : E.length = 6 + vals.length := by
    rw [hE, List.length_append, List.length_map]
    rfl
  have hdropE : E.drop (5 + 1) = vals.map (fun d => CHARSET.getD d ' ') := by
    rw [hE]
    rfl
  have htakeE : E.take 5 = "lnurl".toList := by
    rw [hE]
    rfl
  have hdata : (E.drop (5 + 1)).map charsetFind = vals := by
    rw [hdropE, List.map_map]
    calc vals.map (charsetFind ∘ fun d => CHARSET.getD d ' ')
        = vals.map id := List.map_congr_left (fun d hd => (charsetGetD_facts d (hv d hd)).2.1)
    _ = vals := List.map_id vals
  have hallc : (E.drop (5 + 1)).all (fun c => CHARSET.contains c) = true := by
    rw [hdropE, List.all_eq_true]
    intro c hc
    obtain ⟨d, hd, rfl⟩ := List.mem_map.1 hc
    exact (charsetGetD_facts d (hv d hd)).2.2
  rw [bech32_decode]
  split
  · rename_i hcond
    exfalso
    rcases hcond with h | ⟨hl, hu⟩
    · rw [List.any_eq_true] at h
      obtain ⟨c, hc, hcb⟩ := h
      rw [decide_eq_true_eq] at hcb
      exact hprint c hc hcb
    · exact hu hupup
  · simp only [hlow]
    rw [hfind]
    simp only []
    rw [if_neg (by rw [hElen]; omega)]
    rw [if_pos hallc]
    rw [if_pos (by rw [htakeE, hdata]; exact hck)]
    rw [htakeE, hdata]


theorem cs31 (hrp : List Char) (data : List ℕ) :
    ∀ e ∈ bech32_create_checksum hrp data, e < 32 := by
  intro e he
  simp only [bech32_create_checksum, List.mem_map] at he
  obtain ⟨i, _, rfl⟩ := he
  exact lt_of_le_of_lt Nat.and_le_right (by norm_num)

theorem cs_length (hrp : List Char) (data : List ℕ) :
    (bech32_create_checksum hrp data).length = 6 := by
  simp [bech32_create_checksum]

theorem bech32_decode_encode (data : List ℕ) (hd : ∀ d ∈ data, d < 32)
    (hlen : (bech32_encode "lnurl".toList data).length ≤ 90) :
    bech32_decode (pyUpperL (bech32_encode "lnurl".toList data))
      = some ("lnurl".toList, data) := by
  have hencdef : bech32_encode "lnurl".toList data
      = ("lnurl".toList ++ ['1'])
          ++ (data ++ bech32_create_checksum "lnurl".toList data).map
            (fun d => CHARSET.getD d ' ') := rfl
  have hv : ∀ e ∈ data ++ bech32_create_checksum "lnurl".toList data, e < 32 := by
    intro e he
    rcases List.mem_append.1 he with h | h
    · exact hd e h
    · exact cs31 _ _ e h
  have hL : (bech32_encode "lnurl".toList data).length
      = (data ++ bech32_create_checksum "lnurl".toList data).length + 6 := by
    rw [hencdef, List.length_append, List.length_map,
      show ("lnurl".toList ++ ['1']).length = 6 from rfl]
    omega
  have hlen6 : 6 ≤ (data ++ bech32_create_checksum "lnurl".toList data).length := by
    rw [List.length_append, cs_length]
    omega
  have htake : (data ++ bech32_create_checksum "lnurl".toList data).take
      ((data ++ bech32_create_checksum "lnurl".toList data).length - 6) = data := by
    rw [List.length_append, cs_length, Nat.add_sub_cancel]
    exact List.take_left data _
  rw [hencdef]
  rw [bech32_decode_lnurl _ hv (bech32_verify_create _ _) (by omega) hlen6]
  rw [htake]

theorem utf8EncodeChar_ascii (n : ℕ) (h : n < 128) : utf8EncodeChar n = [n] := by
  rw [utf8EncodeChar, if_pos h]

theorem utf8Encode_ascii (s : List Char) (h : ∀ c ∈ s, c.toNat < 128) :
    utf8Encode s = s.map Char.toNat := by
  induction s with
  | nil => rfl
  | cons c cs ih =>
      have h1 := utf8EncodeChar_ascii c.toNat (h c (List.mem_cons_self c cs))
      have h2 := ih (fun x hx => h x (List.mem_cons_of_mem c hx))
      show utf8EncodeChar c.toNat ++ utf8Encode cs = c.toNat :: cs.map Char.toNat
      rw [h1, h2]
      rfl

theorem utf8DecodeFuel_cons_low (fuel b : ℕ) (rest : List ℕ) (hb : b < 0x80) :
    utf8DecodeFuel (fuel + 1) (b :: rest) = (utf8DecodeFuel fuel rest).map (b :: ·) := by
  rw [utf8DecodeFuel, if_pos hb]

theorem utf8DecodeFuel_ascii (fuel : ℕ) : ∀ bs : List ℕ, bs.length ≤ fuel →
    (∀ b ∈ bs, b < 128) → utf8DecodeFuel fuel bs = some bs := by
  induction fuel with
  | zero =>
      intro bs hlen h
      cases bs with
      | nil => rfl
      | cons b r => simp at hlen
  | succ fuel ih =>
      intro bs hlen h
      cases bs with
      | nil => rfl
      | cons b r =>
          rw [utf8DecodeFuel_cons_low fuel b r (h b (List.mem_cons_self b r))]
          rw [ih r (by rw [List.length_cons] at hlen; omega)
            (fun x hx => h x (List.mem_cons_of_mem b hx))]
          rfl

theorem utf8Decode_ascii (bs : List ℕ) (h : ∀ b ∈ bs, b < 128) :
    utf8Decode bs = some bs :=
  utf8DecodeFuel_ascii bs.length bs le_rfl h

theorem stripLightning_L (xs : List Char) : stripLightning ('L' :: xs) = 'L' :: xs := by
  rw [stripLightning, if_neg]
  rw [show ("lightning:".toList.isPrefixOf ('L' :: xs)) = false from rfl]
  exact Bool.false_ne_true

theorem isPrefixOf_append_self (l₁ l₂ : List Char) : l₁.isPrefixOf (l₁ ++ l₂) = true := by
  induction l₁ with
  | nil => simp [List.isPrefixOf]
  | cons x xs ih => simp [List.isPrefixOf, ih]

/-- C1: for every printable-ASCII URL accepted by the encoder within
bech32's 90-character ceiling, decoding the encoding returns the original
URL, and the encoded string begins with `LNURL1` (so it carries no
`lightning:` prefix). -/
theorem c1_roundtrip (url enc : List Char)
    (hurl : ∀ c ∈ url, 33 ≤ c.toNat ∧ c.toNat ≤ 126)
    (henc : urlEncode url = some enc) (hlen : enc.length ≤ 90) :
    lnurlDecode enc = Except.ok url ∧ "LNURL1".toList.isPrefixOf enc = true := by
  have hascii : ∀ c ∈ url, c.toNat < 128 := fun c hc => by have := hurl c hc; omega
  have hbytes : utf8Encode url = url.map Char.toNat := utf8Encode_ascii url hascii
  have hb256 : ∀ b ∈ utf8Encode url, b < 256 := by
    rw [hbytes]
    intro b hb
    obtain ⟨c, hc, rfl⟩ := List.mem_map.1 hb
    have := hascii c hc
    omega
  obtain ⟨out, hconv, hout32, z, hz, hpad⟩ := convertbits_8_5_pad (utf8Encode url) hb256
  rw [urlEncode, hconv] at henc
  simp only [Option.map_some', Option.some.injEq] at henc
  subst henc
  have hlen' : (bech32_encode "lnurl".toList out).length ≤ 90 := by
    rw [show (pyUpperL (bech32_encode "lnurl".toList out)).length
        = (bech32_encode "lnurl".toList out).length from List.length_map _ _] at hlen
    exact hlen
  have hdec : bech32_decode (pyUpperL (bech32_encode "lnurl".toList out))
      = some ("lnurl".toList, out) := bech32_decode_encode out hout32 hlen'
  obtain ⟨t, ht⟩ : ∃ t, pyUpperL (bech32_encode "lnurl".toList out) = 'L' :: t := ⟨_, rfl⟩
  have hpb : pyBech32Decode (stripLightning (pyUpperL (bech32_encode "lnurl".toList out)))
      (some ["lnurl".toList]) = Except.ok ("lnurl".toList, out) := by
    rw [ht, stripLightning_L, ← ht]
    simp only [pyBech32Decode, hdec]
    rfl
  have hcb : convertbits out 5 8 false = some (utf8Encode url) :=
    convertbits_5_8_unpad out (utf8Encode url) hout32 hb256 z hz hpad
  have hud : utf8Decode (utf8Encode url) = some (url.map Char.toNat) := by
    rw [hbytes]
    exact utf8Decode_ascii _ (fun b hb => by
      obtain ⟨c, hc, rfl⟩ := List.mem_map.1 hb
      exact hascii c hc)
  have hmaps : (url.map Char.toNat).map Char.ofNat = url := by
    rw [List.map_map]
    calc url.map (Char.ofNat ∘ Char.toNat)
        = url.map id := List.map_congr_left (fun c _ => Char.ofNat_toNat c)
    _ = url := List.map_id url
  constructor
  · simp only [lnurlDecode, hpb, hcb, hud]
    rw [hmaps]
  · rw [show pyUpperL (bech32_encode "lnurl".toList out)
        = "LNURL1".toList ++ pyUpperL ((out ++ bech32_create_checksum "lnurl".toList out).map
            (fun d => CHARSET.getD d ' ')) from rfl]
    exact isPrefixOf_append_self _ _

set_option maxRecDepth 10000 in
/-- Witness for C1 at a concrete URL. -/
theorem c1_roundtrip_witness :
    urlEncode "https://x.com".toList
        = some "LNURL1DP68GURN8GHJ77PWVDHK60W6S2T".toList ∧
    lnurlDecode "LNURL1DP68GURN8GHJ77PWVDHK60W6S2T".toList
        = Except.ok "https://x.com".toList ∧
    "LNURL1".toList.isPrefixOf "LNURL1DP68GURN8GHJ77PWVDHK60W6S2T".toList = true := by
  refine ⟨rfl, ?_⟩
  have h := c1_roundtrip "https://x.com".toList "LNURL1DP68GURN8GHJ77PWVDHK60W6S2T".toList
    (by decide) rfl (by decide)
  exact ⟨h.1, h.2⟩

end Lnurl
